import Mathlib

/-!
Verification of core components of the ephysics rigid-body physics engine:
a shallow embedding in Lean 4 of the dynamic AABB tree broad phase
(DynamicAABBTree.cpp), the persistent contact manifold (ContactManifold.cpp),
the smooth-mesh contact filter (ConcaveVsConvexAlgorithm.cpp) and the pool
memory allocator (MemoryAllocator.cpp), together with proofs and refutations
of the specified properties.

Machine floats are embedded as exact rationals; machine integers as
unbounded integers (no arithmetic in the verified fragments approaches the
32-bit range).  Heap pointers are embedded as abstract identifiers, fallible
or unbounded-loop code is embedded with explicit fuel returning `Option`.
-/

namespace EphysicsProof

/-! ### Math kernel: 3-vectors (etk Vector3D / rp3d Vector3)

Modelled from the spec: the math kernel's 3-vector with component-wise
arithmetic, dot product, cross product and squared length (the Vector3D
header is not part of the provided sources). -/

structure Vector3 where
  x : ℚ
  y : ℚ
  z : ℚ
deriving DecidableEq, Repr

namespace Vector3

def add (a b : Vector3) : Vector3 := ⟨a.x + b.x, a.y + b.y, a.z + b.z⟩

def sub (a b : Vector3) : Vector3 := ⟨a.x - b.x, a.y - b.y, a.z - b.z⟩

def neg (a : Vector3) : Vector3 := ⟨-a.x, -a.y, -a.z⟩

def smul (q : ℚ) (a : Vector3) : Vector3 := ⟨q * a.x, q * a.y, q * a.z⟩

def dot (a b : Vector3) : ℚ := a.x * b.x + a.y * b.y + a.z * b.z

def cross (a b : Vector3) : Vector3 :=
  ⟨a.y * b.z - a.z * b.y, a.z * b.x - a.x * b.z, a.x * b.y - a.y * b.x⟩

def lengthSquare (a : Vector3) : ℚ := a.x * a.x + a.y * a.y + a.z * a.z

def zero : Vector3 := ⟨0, 0, 0⟩

end Vector3

/-- Distance-preservation for an embedded rigid-body transform application:
the body poses of the engine are rotation-plus-translation maps, which
preserve all pairwise (squared) distances. -/
def IsIsometry (f : Vector3 → Vector3) : Prop :=
  ∀ p q : Vector3, ((f p).sub (f q)).lengthSquare = (p.sub q).lengthSquare

theorem isIsometry_id : IsIsometry (fun p => p) := fun _ _ => rfl

/-! ### Contact points and the contact manifold (ContactManifold.cpp)

A `ContactPoint` is embedded with the fields that `ContactManifold.cpp`
reads and writes: local- and world-space points on each body, the contact
normal, the penetration depth, and (modelled from the spec) the accumulated
impulses cached for warm-starting, which the manifold code never touches.
The body transforms are embedded as their application maps on points. -/

structure ContactPoint where
  localPoint1 : Vector3
  localPoint2 : Vector3
  worldPoint1 : Vector3
  worldPoint2 : Vector3
  normal : Vector3
  penetrationDepth : ℚ
  /-- Modelled from the spec: accumulated normal impulse from the previous
  step (warm-start cache); opaque to the manifold update code. -/
  penetrationImpulse : ℚ
  /-- Modelled from the spec: accumulated friction impulses from the
  previous step (warm-start cache); opaque to the manifold update code. -/
  frictionImpulse1 : ℚ
deriving DecidableEq, Repr

/-- Modelled from the spec: `MAX_CONTACT_POINTS_IN_MANIFOLD`, the manifold
capacity ("up to 4 cached persistent contacts per shape pair"). -/
def MAX_CONTACT_POINTS_IN_MANIFOLD : ℕ := 4

namespace ContactManifold

/-- The manifold's contact array `m_contactPoints[0..m_nbContactPoints)`:
slot `i` of the array is entry `i` of the list. -/
abbrev Contacts := List ContactPoint

/-- `ContactManifold::getMaxArea` (ContactManifold.cpp:212): index of the
largest of the four candidate areas, by the source's nested comparisons. -/
def getMaxArea (area0 area1 area2 area3 : ℚ) : ℤ :=
  if area0 < area1 then
    if area1 < area2 then
      if area2 < area3 then 3 else 2
    else
      if area1 < area3 then 3 else 1
  else
    if area0 < area2 then
      if area2 < area3 then 3 else 2
    else
      if area0 < area3 then 3 else 0

instance : Inhabited ContactPoint :=
  ⟨⟨Vector3.zero, Vector3.zero, Vector3.zero, Vector3.zero, Vector3.zero, 0, 0, 0⟩⟩

/-- Slot `i` of the contact array; an out-of-range read never occurs on the
verified paths, and defaults otherwise. -/
def slot (m : Contacts) (i : ℕ) : ContactPoint :=
  m.getD i default

/-- `ContactManifold::getIndexOfDeepestPenetration` (ContactManifold.cpp:136):
running argmax of penetration depth over the four cached contacts, seeded
with the new contact's depth; `-1` when the new contact is the deepest. -/
def getIndexOfDeepestPenetration (m : Contacts) (newContact : ContactPoint) : ℤ :=
  let rec loop : ℕ → ℤ → ℚ → ℤ
    | 0, idx, _ => idx
    | n + 1, idx, best =>
        let i := m.length - (n + 1)
        let d := (slot m i).penetrationDepth
        if best < d then loop n (Int.ofNat i) d else loop n idx best
  loop m.length (-1) newContact.penetrationDepth

/-- `ContactManifold::getIndexToRemove` (ContactManifold.cpp:165): candidate
quadrilateral areas (squared cross products of estimated diagonals) for the
three non-deepest slots, then the index of the largest. -/
def getIndexToRemove (m : Contacts) (indexMaxPenetration : ℤ) (newPoint : Vector3) : ℤ :=
  let p0 := (slot m 0).localPoint1
  let p1 := (slot m 1).localPoint1
  let p2 := (slot m 2).localPoint1
  let p3 := (slot m 3).localPoint1
  let area0 := if indexMaxPenetration ≠ 0 then
      ((newPoint.sub p1).cross (p3.sub p2)).lengthSquare else 0
  let area1 := if indexMaxPenetration ≠ 1 then
      ((newPoint.sub p0).cross (p3.sub p2)).lengthSquare else 0
  let area2 := if indexMaxPenetration ≠ 2 then
      ((newPoint.sub p0).cross (p3.sub p1)).lengthSquare else 0
  let area3 := if indexMaxPenetration ≠ 3 then
      ((newPoint.sub p0).cross (p2.sub p1)).lengthSquare else 0
  getMaxArea area0 area1 area2 area3

/-- `ContactManifold::removeContactPoint` (ContactManifold.cpp:66): the last
slot is moved into the removed slot and the count decremented. -/
def removeContactPoint (m : Contacts) (index : ℕ) : Contacts :=
  if index < m.length - 1 then
    (m.set index (slot m (m.length - 1))).dropLast
  else
    m.dropLast

/-- `ContactManifold::addContactPoint` (ContactManifold.cpp:30).
`threshold` is the configuration constant `PERSISTENT_CONTACT_DIST_THRESHOLD`
(modelled from the spec as a parameter: "a configured persistence
threshold"). -/
def addContactPoint (threshold : ℚ) (m : Contacts) (contact : ContactPoint) : Contacts :=
  if m.any fun c =>
      ((c.worldPoint1.sub contact.worldPoint1).lengthSquare ≤ threshold * threshold) then
    m
  else
    let m1 :=
      if m.length = MAX_CONTACT_POINTS_IN_MANIFOLD then
        let indexMaxPenetration := getIndexOfDeepestPenetration m contact
        let indexToRemove := getIndexToRemove m indexMaxPenetration contact.localPoint1
        removeContactPoint m indexToRemove.toNat
      else m
    m1 ++ [contact]

/-- The refresh pass of `ContactManifold::update` (ContactManifold.cpp:94):
world points recomputed through the current body transforms, penetration
depth recomputed as the projection of (world1 − world2) onto the normal. -/
def refreshContact (transform1 transform2 : Vector3 → Vector3)
    (c : ContactPoint) : ContactPoint :=
  let w1 := transform1 c.localPoint1
  let w2 := transform2 c.localPoint2
  { c with
    worldPoint1 := w1
    worldPoint2 := w2
    penetrationDepth := (w1.sub w2).dot c.normal }

/-- The removal test of `ContactManifold::update` (ContactManifold.cpp:107):
`true` when the contact is culled.  Note the source compares the
normal-direction distance against the squared threshold. -/
def isStale (threshold : ℚ) (c : ContactPoint) : Bool :=
  let sqThreshold := threshold * threshold
  let distanceNormal := -c.penetrationDepth
  if sqThreshold < distanceNormal then true
  else
    let projOfPoint1 := c.worldPoint1.add (c.normal.smul distanceNormal)
    let projDifference := c.worldPoint2.sub projOfPoint1
    decide (sqThreshold < projDifference.lengthSquare)

/-- The backwards removal loop of `ContactManifold::update`
(ContactManifold.cpp:107): indices `i = n-1 … 0`, stale slots removed with
the swap-with-last `removeContactPoint`. -/
def cullLoop (threshold : ℚ) : Contacts → ℕ → Contacts
  | m, 0 => m
  | m, i + 1 =>
      let m' := if isStale threshold (slot m i) then removeContactPoint m i else m
      cullLoop threshold m' i

/-- `ContactManifold::update` (ContactManifold.cpp:89). -/
def update (threshold : ℚ) (m : Contacts)
    (transform1 transform2 : Vector3 → Vector3) : Contacts :=
  if m.length = 0 then m
  else
    let refreshed := m.map (refreshContact transform1 transform2)
    cullLoop threshold refreshed refreshed.length

/-- Manifold states reachable from the empty manifold by any sequence of
`addContactPoint` and `update` calls with rigid (distance-preserving) body
transforms and arbitrary incoming contacts. -/
inductive Reach (threshold : ℚ) : Contacts → Prop
  | empty : Reach threshold []
  | add (m : Contacts) (c : ContactPoint) :
      Reach threshold m → Reach threshold (addContactPoint threshold m c)
  | upd (m : Contacts) (t1 t2 : Vector3 → Vector3) :
      IsIsometry t1 → IsIsometry t2 →
      Reach threshold m → Reach threshold (update threshold m t1 t2)

/-- Manifold states reachable when, additionally, every contact handed to
`addContactPoint` has its world point on body 1 equal to the image of its
local point on body 1 under the current transform of body 1 (the transform
used by the most recent `update`), as in the engine's per-step pipeline
where the manifold refresh precedes the narrow phase.  The index carries the
current transform of body 1. -/
inductive CoherentReach (threshold : ℚ) : (Vector3 → Vector3) → Contacts → Prop
  | empty (t : Vector3 → Vector3) : IsIsometry t → CoherentReach threshold t []
  | add (t : Vector3 → Vector3) (m : Contacts) (c : ContactPoint) :
      CoherentReach threshold t m → c.worldPoint1 = t c.localPoint1 →
      CoherentReach threshold t (addContactPoint threshold m c)
  | upd (t t1 t2 : Vector3 → Vector3) (m : Contacts) :
      CoherentReach threshold t m → IsIsometry t1 →
      CoherentReach threshold t1 (update threshold m t1 t2)

/-! #### Surgery lemmas for the swap-with-last removal -/

theorem set_eq_take_append_cons_drop {α : Type} (l : List α) (n : ℕ) (v : α)
    (h : n < l.length) : l.set n v = l.take n ++ v :: l.drop (n + 1) := by
  induction l generalizing n with
  | nil => simp at h
  | cons a t ih =>
      cases n with
      | zero => simp
      | succ k =>
          have hk : k < t.length := by simpa using h
          simp [ih k hk]

theorem eraseIdx_eq_take_append_drop {α : Type} (l : List α) (n : ℕ) :
    l.eraseIdx n = l.take n ++ l.drop (n + 1) := by
  induction l generalizing n with
  | nil => simp
  | cons a t ih =>
      cases n with
      | zero => simp
      | succ k => simpa using ih k

theorem removeContactPoint_perm (l : Contacts) (n : ℕ) (h : n < l.length) :
    (removeContactPoint l n).Perm (l.eraseIdx n) := by
  rcases lt_or_ge n (l.length - 1) with hlt | hge
  · have hn1 : n + 1 < l.length := by omega
    have hdropne : l.drop (n + 1) ≠ [] := by
      intro hnil
      have := List.length_drop (n + 1) l
      rw [hnil] at this
      simp at this
      omega
    have hlast : l.length - 1 < l.length := by omega
    have hlne : l ≠ [] := List.ne_nil_of_length_pos (by omega)
    set v := slot l (l.length - 1) with hv
    have hvlast : v = l.getLast hlne := by
      rw [hv, List.getLast_eq_getElem]
      simp only [slot]
      exact List.getD_eq_getElem l default hlast
    have hfull : l.dropLast ++ [v] = l := by
      rw [hvlast]; exact List.dropLast_append_getLast hlne
    have hsplit : l.drop (n + 1) = l.dropLast.drop (n + 1) ++ [v] := by
      conv_lhs => rw [← hfull]
      rw [List.drop_append_of_le_length]
      rw [List.length_dropLast]; omega
    have hdldrop : (l.drop (n + 1)).dropLast = l.dropLast.drop (n + 1) := by
      rw [hsplit, List.dropLast_concat]
    have hset : l.set n v = l.take n ++ v :: l.drop (n + 1) :=
      set_eq_take_append_cons_drop l n v h
    have hdl : (l.set n v).dropLast
        = l.take n ++ v :: (l.drop (n + 1)).dropLast := by
      rw [hset, List.dropLast_append_of_ne_nil _ (by simp),
        List.dropLast_cons_of_ne_nil hdropne]
    rw [removeContactPoint, if_pos hlt, hdl, eraseIdx_eq_take_append_drop]
    refine List.Perm.append_left _ ?_
    rw [hdldrop]
    conv_rhs => rw [hsplit]
    exact (List.perm_append_singleton v _).symm
  · have hn : n = l.length - 1 := by omega
    rw [removeContactPoint, if_neg (by omega), eraseIdx_eq_take_append_drop, hn]
    have : l.drop (l.length - 1 + 1) = [] := by
      apply List.drop_eq_nil_of_le; omega
    rw [this, List.append_nil, List.dropLast_eq_take]

theorem removeContactPoint_length (l : Contacts) (n : ℕ) :
    (removeContactPoint l n).length = l.length - 1 := by
  rw [removeContactPoint]
  split <;> simp

theorem removeContactPoint_subperm (l : Contacts) (n : ℕ) (h : n < l.length) :
    (removeContactPoint l n).Subperm l :=
  ⟨l.eraseIdx n, (removeContactPoint_perm l n h).symm, List.eraseIdx_sublist l n⟩

/-- Selector for the four candidate areas of `getIndexToRemove`. -/
def pickArea (area0 area1 area2 area3 : ℚ) : ℤ → ℚ
  | 0 => area0
  | 1 => area1
  | 2 => area2
  | _ => area3

/-- `getMaxArea` returns an index in `{0,1,2,3}` whose area dominates all
four candidates. -/
theorem getMaxArea_spec (area0 area1 area2 area3 : ℚ) :
    (0 ≤ getMaxArea area0 area1 area2 area3 ∧ getMaxArea area0 area1 area2 area3 ≤ 3) ∧
    (area0 ≤ pickArea area0 area1 area2 area3 (getMaxArea area0 area1 area2 area3) ∧
     area1 ≤ pickArea area0 area1 area2 area3 (getMaxArea area0 area1 area2 area3) ∧
     area2 ≤ pickArea area0 area1 area2 area3 (getMaxArea area0 area1 area2 area3) ∧
     area3 ≤ pickArea area0 area1 area2 area3 (getMaxArea area0 area1 area2 area3)) := by
  rw [getMaxArea]
  split_ifs <;>
    refine ⟨⟨by norm_num, by norm_num⟩, ?_⟩ <;>
    simp only [pickArea] <;>
    refine ⟨by linarith, by linarith, by linarith, by linarith⟩

theorem getIndexToRemove_range (m : Contacts) (imax : ℤ) (p : Vector3) :
    0 ≤ getIndexToRemove m imax p ∧ getIndexToRemove m imax p ≤ 3 := by
  rw [getIndexToRemove]
  exact (getMaxArea_spec _ _ _ _).1

theorem getIndexToRemove_toNat_lt (m : Contacts) (imax : ℤ) (p : Vector3)
    (hm : m.length = MAX_CONTACT_POINTS_IN_MANIFOLD) :
    (getIndexToRemove m imax p).toNat < m.length := by
  have h := getIndexToRemove_range m imax p
  rw [hm, MAX_CONTACT_POINTS_IN_MANIFOLD]
  omega

/-- Manifold size after `addContactPoint`: the count never exceeds the
capacity of four. -/
theorem addContactPoint_length (threshold : ℚ) (m : Contacts) (c : ContactPoint)
    (h : m.length ≤ MAX_CONTACT_POINTS_IN_MANIFOLD) :
    (addContactPoint threshold m c).length ≤ MAX_CONTACT_POINTS_IN_MANIFOLD := by
  rw [addContactPoint]
  split
  · exact h
  · split
    · rename_i hfull
      rw [List.length_append, List.length_cons, List.length_nil,
        removeContactPoint_length, hfull]
      norm_num [MAX_CONTACT_POINTS_IN_MANIFOLD]
    · rename_i hnotfull
      rw [List.length_append, List.length_cons, List.length_nil]
      rw [MAX_CONTACT_POINTS_IN_MANIFOLD] at *
      omega

/-- Any contact stored after `addContactPoint` was already stored, or is the
new contact. -/
theorem addContactPoint_mem (threshold : ℚ) (m : Contacts) (c x : ContactPoint)
    (hx : x ∈ addContactPoint threshold m c) : x ∈ m ∨ x = c := by
  rw [addContactPoint] at hx
  split at hx
  · exact Or.inl hx
  · rcases List.mem_append.1 hx with hx1 | hx1
    · split at hx1
      · rename_i hfull
        left
        rcases (removeContactPoint_subperm m _
          (getIndexToRemove_toNat_lt m _ _ hfull)) with ⟨l', hperm, hsubl⟩
        exact hsubl.mem (hperm.mem_iff.2 hx1)
      · exact Or.inl hx1
    · right; simpa using hx1

/-- Pairwise separation, stated on squared distances through a projection. -/
def PairSep (threshold : ℚ) (f : ContactPoint → Vector3) (m : Contacts) : Prop :=
  m.Pairwise fun a b => threshold * threshold < ((f a).sub (f b)).lengthSquare

theorem pairSep_symmetric (threshold : ℚ) (f : ContactPoint → Vector3) :
    Symmetric fun a b : ContactPoint =>
      threshold * threshold < ((f a).sub (f b)).lengthSquare := by
  intro a b hab
  have hsq : ((f b).sub (f a)).lengthSquare = ((f a).sub (f b)).lengthSquare := by
    simp only [Vector3.sub, Vector3.lengthSquare]
    ring
  rw [hsq]
  exact hab

theorem pairSep_subperm {threshold : ℚ} {f : ContactPoint → Vector3}
    {m m' : Contacts} (hsub : m'.Subperm m) (hm : PairSep threshold f m) :
    PairSep threshold f m' := by
  rcases hsub with ⟨l', hperm, hsubl⟩
  exact (hperm.pairwise_iff
    (fun hab => pairSep_symmetric threshold f hab)).1 (hm.sublist hsubl)

/-- `addContactPoint` preserves pairwise separation of the *local* points on
body 1, provided the stored and incoming world points on body 1 are the
images of the local points under a common isometry (the dedup check is
performed on world points). -/
theorem addContactPoint_pairSep (threshold : ℚ) (t : Vector3 → Vector3)
    (ht : IsIsometry t) (m : Contacts) (c : ContactPoint)
    (hcoh : ∀ x ∈ m, x.worldPoint1 = t x.localPoint1)
    (hc : c.worldPoint1 = t c.localPoint1)
    (hm : PairSep threshold (·.localPoint1) m) :
    PairSep threshold (·.localPoint1) (addContactPoint threshold m c) := by
  rw [addContactPoint]
  split
  · exact hm
  · rename_i hnodup
    have hsep : ∀ x ∈ m,
        threshold * threshold < ((x.localPoint1).sub c.localPoint1).lengthSquare := by
      intro x hx
      have hx1 : ¬ ((x.worldPoint1.sub c.worldPoint1).lengthSquare ≤ threshold * threshold) := by
        intro hle
        exact hnodup (List.any_eq_true.2 ⟨x, hx, decide_eq_true hle⟩)
      have hxw : (x.worldPoint1.sub c.worldPoint1).lengthSquare
          = ((x.localPoint1).sub c.localPoint1).lengthSquare := by
        rw [hcoh x hx, hc]; exact ht x.localPoint1 c.localPoint1
      rw [hxw] at hx1
      exact lt_of_not_ge hx1
    have hstep : ∀ (m1 : Contacts), m1.Subperm m →
        PairSep threshold (·.localPoint1) (m1 ++ [c]) := by
      intro m1 hm1
      have hp1 : PairSep threshold (·.localPoint1) m1 := pairSep_subperm hm1 hm
      rw [PairSep, List.pairwise_append]
      refine ⟨hp1, List.pairwise_singleton _ _, ?_⟩
      intro x hx y hy
      rcases List.mem_singleton.1 hy with rfl
      exact hsep x (hm1.subset hx)
    split
    · rename_i hfull
      exact hstep _ (removeContactPoint_subperm m _
        (getIndexToRemove_toNat_lt m _ _ hfull))
    · exact hstep m (List.Subperm.refl m)

/-! #### The multiset effect of `ContactManifold::update` -/

/-- The removal pass over indices `n-1 … 0` keeps exactly the non-stale
slots, up to reordering induced by the swap-with-last removals. -/
theorem cullLoop_perm (threshold : ℚ) :
    ∀ (n : ℕ) (l : Contacts), n ≤ l.length →
      (cullLoop threshold l n).Perm
        (((l.take n).filter fun c => ¬ isStale threshold c) ++ l.drop n) := by
  intro n
  induction n with
  | zero => intro l _; simp [cullLoop]
  | succ k ih =>
      intro l hn
      have hk : k < l.length := hn
      have hslot : slot l k = l[k] := List.getD_eq_getElem l default hk
      have htake : l.take (k + 1) = l.take k ++ [l[k]] := by
        rw [List.take_succ, List.getElem?_eq_getElem hk]
        rfl
      have hdrop : l.drop k = l[k] :: l.drop (k + 1) := List.drop_eq_getElem_cons hk
      rw [cullLoop]
      split
      · rename_i hstale
        rw [hslot] at hstale
        have hlen' : k ≤ (removeContactPoint l k).length := by
          rw [removeContactPoint_length]; omega
        refine (ih (removeContactPoint l k) hlen').trans ?_
        have htk : (removeContactPoint l k).take k = l.take k := by
          rw [removeContactPoint]
          split
          · rw [List.dropLast_eq_take, List.take_take, List.length_set,
              min_eq_left (by omega), set_eq_take_append_cons_drop l k _ hk,
              List.take_append_of_le_length (by rw [List.length_take]; omega),
              List.take_take, min_self]
          · rw [List.dropLast_eq_take, List.take_take, min_eq_left (by omega)]
        have hdk : ((removeContactPoint l k).drop k).Perm (l.drop (k + 1)) := by
          have h1 : (removeContactPoint l k).Perm (l.eraseIdx k) :=
            removeContactPoint_perm l k hk
          have h2 : l.eraseIdx k = l.take k ++ l.drop (k + 1) :=
            eraseIdx_eq_take_append_drop l k
          have h3 : (removeContactPoint l k) = (removeContactPoint l k).take k
              ++ (removeContactPoint l k).drop k := (List.take_append_drop _ _).symm
          have h4 : ((removeContactPoint l k).take k ++ (removeContactPoint l k).drop k).Perm
              (l.take k ++ l.drop (k + 1)) := by rw [← h3, ← h2]; exact h1
          rw [htk] at h4
          exact (List.perm_append_left_iff _).1 h4
        have hmid : (((removeContactPoint l k).take k).filter
              (fun c => ¬ isStale threshold c)
              ++ (removeContactPoint l k).drop k).Perm
            ((l.take k).filter (fun c => ¬ isStale threshold c) ++ l.drop (k+1)) := by
          rw [htk]; exact List.Perm.append_left _ hdk
        refine hmid.trans (List.Perm.of_eq ?_)
        rw [htake, List.filter_append]
        simp [hstale]
      · rename_i hkeep
        rw [hslot] at hkeep
        refine (ih l (by omega)).trans ?_
        rw [htake, List.filter_append, hdrop]
        simp only [List.filter_cons, List.filter_nil]
        rw [if_pos (by simpa using hkeep)]
        simp

/-- `update` keeps, as a multiset, exactly the refreshed contacts that pass
the staleness test. -/
theorem update_perm_filter (threshold : ℚ) (m : Contacts)
    (t1 t2 : Vector3 → Vector3) :
    (update threshold m t1 t2).Perm
      ((m.map (refreshContact t1 t2)).filter fun c => ¬ isStale threshold c) := by
  rw [update]
  split
  · rename_i h0
    have hnil : m = [] := List.eq_nil_of_length_eq_zero h0
    subst hnil
    simp
  · refine (cullLoop_perm threshold _ _ le_rfl).trans ?_
    rw [List.take_length, List.drop_length, List.append_nil]

theorem coherentReach_isometry {threshold : ℚ} {t : Vector3 → Vector3}
    {m : Contacts} (h : CoherentReach threshold t m) : IsIsometry t := by
  induction h with
  | empty _ ht => exact ht
  | add _ _ _ _ _ ih => exact ih
  | upd _ _ _ _ _ ht1 => exact ht1

/-- The inductive invariant behind the manifold's separation property:
bounded size, world points coherent with the current body-1 transform, and
pairwise separation of the local points on body 1. -/
theorem coherentReach_invariant {threshold : ℚ} {t : Vector3 → Vector3}
    {m : Contacts} (h : CoherentReach threshold t m) :
    m.length ≤ MAX_CONTACT_POINTS_IN_MANIFOLD ∧
    (∀ c ∈ m, c.worldPoint1 = t c.localPoint1) ∧
    PairSep threshold (·.localPoint1) m := by
  induction h with
  | empty _ _ => exact ⟨by simp [MAX_CONTACT_POINTS_IN_MANIFOLD], by simp, List.Pairwise.nil⟩
  | add t m c hreach hcoh ih =>
      obtain ⟨hlen, hcohm, hpair⟩ := ih
      have ht : IsIsometry t := coherentReach_isometry hreach
      refine ⟨addContactPoint_length threshold m c hlen, ?_, ?_⟩
      · intro x hx
        rcases addContactPoint_mem threshold m c x hx with hx1 | rfl
        · exact hcohm x hx1
        · exact hcoh
      · exact addContactPoint_pairSep threshold t ht m c hcohm hcoh hpair
  | upd t t1 t2 m hreach ht1 ih =>
      obtain ⟨hlen, hcohm, hpair⟩ := ih
      have hperm := update_perm_filter threshold m t1 t2
      have hmemmap : ∀ x ∈ update threshold m t1 t2,
          x ∈ m.map (refreshContact t1 t2) := by
        intro x hx
        exact List.mem_of_mem_filter (hperm.mem_iff.1 hx)
      refine ⟨?_, ?_, ?_⟩
      · calc (update threshold m t1 t2).length
            = ((m.map (refreshContact t1 t2)).filter
                fun c => ¬ isStale threshold c).length := hperm.length_eq
          _ ≤ (m.map (refreshContact t1 t2)).length := List.length_filter_le _ _
          _ = m.length := List.length_map _ _
          _ ≤ _ := hlen
      · intro x hx
        rcases List.mem_map.1 (hmemmap x hx) with ⟨y, _, rfl⟩
        rfl
      · have hmap : PairSep threshold (·.localPoint1) (m.map (refreshContact t1 t2)) := by
          rw [PairSep, List.pairwise_map]
          exact hpair.imp (by intro a b hab; exact hab)
        have hfil : PairSep threshold (·.localPoint1)
            ((m.map (refreshContact t1 t2)).filter fun c => ¬ isStale threshold c) :=
          hmap.sublist (List.filter_sublist _)
        exact (hperm.pairwise_iff
          (fun hab => pairSep_symmetric threshold (·.localPoint1) hab)).2 hfil

/-! #### Specification of the deepest-penetration argmax -/

theorem getIndexOfDeepestPenetration_spec (m : Contacts) (c : ContactPoint) :
    (getIndexOfDeepestPenetration m c = -1 ∧
      ∀ i, i < m.length → (slot m i).penetrationDepth ≤ c.penetrationDepth) ∨
    (0 ≤ getIndexOfDeepestPenetration m c ∧
      (getIndexOfDeepestPenetration m c).toNat < m.length ∧
      c.penetrationDepth <
        (slot m (getIndexOfDeepestPenetration m c).toNat).penetrationDepth ∧
      ∀ i, i < m.length → (slot m i).penetrationDepth ≤
        (slot m (getIndexOfDeepestPenetration m c).toNat).penetrationDepth) := by
  rw [getIndexOfDeepestPenetration]
  suffices h : ∀ (n : ℕ) (idx : ℤ) (best : ℚ), n ≤ m.length →
      ((idx = -1 ∧ best = c.penetrationDepth) ∨
        (0 ≤ idx ∧ idx.toNat < m.length ∧
          best = (slot m idx.toNat).penetrationDepth ∧ c.penetrationDepth < best)) →
      (∀ i, i < m.length - n → (slot m i).penetrationDepth ≤ best) →
      ((getIndexOfDeepestPenetration.loop m n idx best = -1 ∧
        ∀ i, i < m.length → (slot m i).penetrationDepth ≤ c.penetrationDepth) ∨
      (0 ≤ getIndexOfDeepestPenetration.loop m n idx best ∧
        (getIndexOfDeepestPenetration.loop m n idx best).toNat < m.length ∧
        c.penetrationDepth <
          (slot m (getIndexOfDeepestPenetration.loop m n idx best).toNat).penetrationDepth ∧
        ∀ i, i < m.length → (slot m i).penetrationDepth ≤
          (slot m (getIndexOfDeepestPenetration.loop m n idx best).toNat).penetrationDepth)) by
    exact h m.length (-1) c.penetrationDepth le_rfl (Or.inl ⟨rfl, rfl⟩) (by omega)
  intro n
  induction n with
  | zero =>
      intro idx best _ hinv hbound
      rcases hinv with ⟨rfl, rfl⟩ | ⟨h0, hlt, rfl, hgt⟩
      · left
        exact ⟨rfl, fun i hi => hbound i (by omega)⟩
      · right
        exact ⟨h0, hlt, hgt, fun i hi => hbound i (by omega)⟩
  | succ k ih =>
      intro idx best hn hinv hbound
      rw [getIndexOfDeepestPenetration.loop]
      split
      · rename_i hbest
        refine ih (Int.ofNat (m.length - (k + 1)))
          ((slot m (m.length - (k + 1))).penetrationDepth) (by omega) ?_ ?_
        · right
          refine ⟨Int.ofNat_nonneg _, by simp; omega, by simp, ?_⟩
          rcases hinv with ⟨_, rfl⟩ | ⟨_, _, rfl, hgt⟩
          · exact hbest
          · exact lt_trans hgt hbest
        · intro i hi
          rcases Nat.lt_or_ge i (m.length - (k + 1)) with hi1 | hi1
          · exact le_of_lt (lt_of_le_of_lt (hbound i hi1) hbest)
          · have : i = m.length - (k + 1) := by omega
            rw [this]
      · rename_i hbest
        refine ih idx best (by omega) hinv ?_
        intro i hi
        rcases Nat.lt_or_ge i (m.length - (k + 1)) with hi1 | hi1
        · exact hbound i hi1
        · have : i = m.length - (k + 1) := by omega
          rw [this]
          exact le_of_not_lt hbest

/-- The quadrilateral-area value that `getIndexToRemove` computes for a
candidate slot `k` (squared length of the cross product of the estimated
diagonals of the quadrilateral obtained by replacing slot `k` with the new
point). -/
def areaAt (m : Contacts) (newPoint : Vector3) : ℤ → ℚ
  | 0 => ((newPoint.sub (slot m 1).localPoint1).cross
      ((slot m 3).localPoint1.sub (slot m 2).localPoint1)).lengthSquare
  | 1 => ((newPoint.sub (slot m 0).localPoint1).cross
      ((slot m 3).localPoint1.sub (slot m 2).localPoint1)).lengthSquare
  | 2 => ((newPoint.sub (slot m 0).localPoint1).cross
      ((slot m 3).localPoint1.sub (slot m 1).localPoint1)).lengthSquare
  | _ => ((newPoint.sub (slot m 0).localPoint1).cross
      ((slot m 2).localPoint1.sub (slot m 1).localPoint1)).lengthSquare

theorem getIndexToRemove_eq (m : Contacts) (imax : ℤ) (p : Vector3) :
    getIndexToRemove m imax p =
      getMaxArea (if imax ≠ 0 then areaAt m p 0 else 0)
        (if imax ≠ 1 then areaAt m p 1 else 0)
        (if imax ≠ 2 then areaAt m p 2 else 0)
        (if imax ≠ 3 then areaAt m p 3 else 0) := rfl

/-- When the deepest existing contact is protected (`imax ∈ {0,.,3}`) and at
least one candidate slot has a strictly positive area, `getIndexToRemove`
returns a candidate slot (never `imax`) whose area dominates all candidate
slots. -/
theorem getIndexToRemove_spec (m : Contacts) (imax : ℤ) (p : Vector3)
    (himax0 : 0 ≤ imax) (himax3 : imax ≤ 3)
    (hpos : ∃ k, 0 ≤ k ∧ k ≤ 3 ∧ k ≠ imax ∧ 0 < areaAt m p k) :
    getIndexToRemove m imax p ≠ imax ∧
    0 ≤ getIndexToRemove m imax p ∧ getIndexToRemove m imax p ≤ 3 ∧
    (∀ k : ℤ, 0 ≤ k → k ≤ 3 → k ≠ imax →
      areaAt m p k ≤ areaAt m p (getIndexToRemove m imax p)) := by
  obtain ⟨k0, hk00, hk03, hk0ne, hk0pos⟩ := hpos
  rw [getIndexToRemove_eq m imax p]
  set a0 := if imax ≠ 0 then areaAt m p 0 else 0 with ha0
  set a1 := if imax ≠ 1 then areaAt m p 1 else 0 with ha1
  set a2 := if imax ≠ 2 then areaAt m p 2 else 0 with ha2
  set a3 := if imax ≠ 3 then areaAt m p 3 else 0 with ha3
  obtain ⟨⟨hr0, hr3⟩, hd0, hd1, hd2, hd3⟩ := getMaxArea_spec a0 a1 a2 a3
  set r := getMaxArea a0 a1 a2 a3 with hr
  have hcand : ∀ k : ℤ, 0 ≤ k → k ≤ 3 → k ≠ imax →
      areaAt m p k ≤ pickArea a0 a1 a2 a3 r := by
    intro k hk0 hk3 hkne
    have hk : k = 0 ∨ k = 1 ∨ k = 2 ∨ k = 3 := by omega
    rcases hk with rfl | rfl | rfl | rfl
    · have hval : a0 = areaAt m p 0 := by rw [ha0, if_pos (by omega)]
      rw [← hval]; exact hd0
    · have hval : a1 = areaAt m p 1 := by rw [ha1, if_pos (by omega)]
      rw [← hval]; exact hd1
    · have hval : a2 = areaAt m p 2 := by rw [ha2, if_pos (by omega)]
      rw [← hval]; exact hd2
    · have hval : a3 = areaAt m p 3 := by rw [ha3, if_pos (by omega)]
      rw [← hval]; exact hd3
  have hposr : 0 < pickArea a0 a1 a2 a3 r :=
    lt_of_lt_of_le hk0pos (hcand k0 hk00 hk03 hk0ne)
  have hrne : r ≠ imax := by
    intro hreq
    have hzero : pickArea a0 a1 a2 a3 r = 0 := by
      have hrcase : r = 0 ∨ r = 1 ∨ r = 2 ∨ r = 3 := by omega
      rcases hrcase with h | h | h | h
      · have himax : imax = 0 := by omega
        rw [h]; simp only [pickArea]; rw [ha0, if_neg (by omega)]
      · have himax : imax = 1 := by omega
        rw [h]; simp only [pickArea]; rw [ha1, if_neg (by omega)]
      · have himax : imax = 2 := by omega
        rw [h]; simp only [pickArea]; rw [ha2, if_neg (by omega)]
      · have himax : imax = 3 := by omega
        rw [h]; simp only [pickArea]; rw [ha3, if_neg (by omega)]
    rw [hzero] at hposr
    exact lt_irrefl 0 hposr
  have hpick : pickArea a0 a1 a2 a3 r = areaAt m p r := by
    have hrcase : r = 0 ∨ r = 1 ∨ r = 2 ∨ r = 3 := by omega
    rcases hrcase with h | h | h | h
    · rw [h]; simp only [pickArea]; rw [ha0, if_pos (by omega)]
    · rw [h]; simp only [pickArea]; rw [ha1, if_pos (by omega)]
    · rw [h]; simp only [pickArea]; rw [ha2, if_pos (by omega)]
    · rw [h]; simp only [pickArea]; rw [ha3, if_pos (by omega)]
  refine ⟨hrne, hr0, hr3, ?_⟩
  intro k hk0 hk3 hkne
  rw [← hpick]
  exact hcand k hk0 hk3 hkne

/-! #### Concrete inputs used to settle the manifold claims -/

/-- A contact whose world points coincide with its local points. -/
def cexContactA : ContactPoint :=
  ⟨⟨0,0,0⟩, ⟨0,0,0⟩, ⟨0,0,0⟩, ⟨0,0,0⟩, ⟨1,0,0⟩, 0, 0, 0⟩

/-- A contact whose world point on body 1 is far from its local point
(as can be handed to `addContactPoint` by a caller outside the engine's
refresh-then-add pipeline). -/
def cexContactB : ContactPoint :=
  ⟨⟨1/500,0,0⟩, ⟨1/500,0,0⟩, ⟨10,0,0⟩, ⟨10,0,0⟩, ⟨1,0,0⟩, 0, 0, 0⟩

def cexManifoldC2 : Contacts :=
  update (3/100) (addContactPoint (3/100) (addContactPoint (3/100) [] cexContactA)
    cexContactB) (fun p => p) (fun p => p)

unseal Rat.add Rat.mul Rat.sub Rat.inv in
/-- Claim C2 as stated is false: a manifold state reachable by two
`addContactPoint` calls followed by an `update` with the identity body poses
stores two contacts whose world points on body 1 are within the persistence
threshold (3/100) of each other.  The dedup check of `addContactPoint`
compares the world points valid at insertion time, while `update` rewrites
all world points through the body poses, so inconsistent caller-supplied
world points defeat the separation invariant. -/
theorem manifold_separation_counterexample :
    Reach (3/100) cexManifoldC2 ∧
    cexManifoldC2.length = 2 ∧
    ((slot cexManifoldC2 0).worldPoint1.sub
      (slot cexManifoldC2 1).worldPoint1).lengthSquare ≤ (3/100) * (3/100) := by
  refine ⟨Reach.upd _ _ _ isIsometry_id isIsometry_id
    (Reach.add _ cexContactB (Reach.add _ cexContactA Reach.empty)), ?_, ?_⟩
  · decide
  · decide

/-- Claim C2 (amended): for every manifold state reachable from the empty
manifold by `addContactPoint` and `update` calls in which the world point on
body 1 of every incoming contact is the image of its local point under the
current (rigid) transform of body 1 — the engine's refresh-then-add
pipeline — the stored contact count is at most 4 and the world points on
body 1 of any two stored contacts are more than the persistence threshold
apart. -/
theorem manifold_count_and_separation {threshold : ℚ} {t : Vector3 → Vector3}
    {m : Contacts} (h : CoherentReach threshold t m) :
    m.length ≤ MAX_CONTACT_POINTS_IN_MANIFOLD ∧
    PairSep threshold (·.worldPoint1) m := by
  obtain ⟨hlen, hcoh, hpair⟩ := coherentReach_invariant h
  have ht := coherentReach_isometry h
  refine ⟨hlen, ?_⟩
  rw [PairSep] at hpair ⊢
  refine List.Pairwise.imp_of_mem ?_ hpair
  intro a b ha hb hab
  have hw : ((a.worldPoint1).sub b.worldPoint1).lengthSquare
      = ((a.localPoint1).sub b.localPoint1).lengthSquare := by
    rw [hcoh a ha, hcoh b hb]
    exact ht a.localPoint1 b.localPoint1
  rw [hw]
  exact hab

unseal Rat.add Rat.mul Rat.sub Rat.inv in
/-- Witness for the amended claim C2 at a concrete reachable state. -/
theorem manifold_count_and_separation_witness :
    (update (3/100) (addContactPoint (3/100) [] cexContactA)
        (fun p => p) (fun p => p)).length ≤ MAX_CONTACT_POINTS_IN_MANIFOLD ∧
    PairSep (3/100) (·.worldPoint1)
      (update (3/100) (addContactPoint (3/100) [] cexContactA)
        (fun p => p) (fun p => p)) :=
  manifold_count_and_separation
    (CoherentReach.upd _ _ (fun p => p) _
      (CoherentReach.add _ _ cexContactA
        (CoherentReach.empty _ isIsometry_id) rfl) isIsometry_id)

/-- The culling comparator of `ContactManifold::update` as worded by the
claim: a contact is dropped when its normal-direction distance exceeds the
persistence threshold or its in-plane separation squared exceeds the same
threshold (both compared against the unsquared threshold). -/
def updateByClaim (threshold : ℚ) (m : Contacts)
    (t1 t2 : Vector3 → Vector3) : Contacts :=
  (m.map (refreshContact t1 t2)).filter fun c =>
    !(decide (threshold < -c.penetrationDepth) ||
      decide (threshold < ((c.worldPoint2.sub (c.worldPoint1.add
        (c.normal.smul (-c.penetrationDepth)))).lengthSquare)))

/-- A contact that refreshes to a normal-direction distance of 1/100. -/
def cexContactC3 : ContactPoint :=
  ⟨⟨0,0,0⟩, ⟨1/100,0,0⟩, ⟨0,0,0⟩, ⟨0,0,0⟩, ⟨1,0,0⟩, 0, 0, 0⟩

unseal Rat.add Rat.mul Rat.sub Rat.inv in
/-- Claim C3 as stated is false: the source compares the normal-direction
distance against the *square* of the persistence threshold
(`distanceNormal > squarePersistentContactThreshold`,
ContactManifold.cpp:114), not against the threshold itself.  A refreshed
contact at normal distance 1/100 with persistence threshold 3/100 is culled
by the code (1/100 > 9/10000) although the claim says it is kept
(1/100 < 3/100, zero in-plane separation). -/
theorem manifold_refresh_counterexample :
    update (3/100) [cexContactC3] (fun p => p) (fun p => p) = [] ∧
    updateByClaim (3/100) [cexContactC3] (fun p => p) (fun p => p)
      = [refreshContact (fun p => p) (fun p => p) cexContactC3] := by
  constructor
  · decide
  · decide

theorem not_isStale_bool (threshold : ℚ) (c : ContactPoint) :
    (!(isStale threshold c)) =
      (decide (-c.penetrationDepth ≤ threshold * threshold) &&
        decide (((c.worldPoint2.sub (c.worldPoint1.add
          (c.normal.smul (-c.penetrationDepth)))).lengthSquare
            ≤ threshold * threshold))) := by
  simp only [isStale]
  by_cases hgt : threshold * threshold < -c.penetrationDepth
  · rw [if_pos hgt, decide_eq_false (not_le.2 hgt)]
    rfl
  · rw [if_neg hgt, decide_eq_true (not_lt.1 hgt), Bool.true_and,
      ← decide_not, decide_eq_decide]
    exact not_lt

/-- Claim C3 (amended): `update` recomputes every stored contact's world
points through the current body poses and its penetration depth as the
projection of (world1 − world2) onto the stored normal (`refreshContact`),
and keeps — with accumulated impulses and all other fields unchanged, as a
multiset — exactly the refreshed contacts whose normal-direction distance
and in-plane separation squared are both at most the *square* of the
persistence threshold. -/
theorem manifold_refresh_multiset (threshold : ℚ) (m : Contacts)
    (t1 t2 : Vector3 → Vector3) :
    (update threshold m t1 t2).Perm
      ((m.map (refreshContact t1 t2)).filter fun c =>
        decide (-c.penetrationDepth ≤ threshold * threshold) &&
        decide (((c.worldPoint2.sub (c.worldPoint1.add
          (c.normal.smul (-c.penetrationDepth)))).lengthSquare
            ≤ threshold * threshold))) := by
  refine (update_perm_filter threshold m t1 t2).trans (List.Perm.of_eq ?_)
  apply List.filter_congr
  intro c _
  rw [decide_not, Bool.decide_eq_true]
  exact not_isStale_bool threshold c

/-! #### Claim C4: the keep-best policy of a full manifold -/

/-- Four cached contacts whose local points on body 1 are collinear
(a degenerate quadrilateral), with slot 0 strictly deepest. -/
def cexManifold4 : Contacts :=
  [⟨⟨0,0,0⟩, ⟨0,0,0⟩, ⟨0,0,0⟩, ⟨0,0,0⟩, ⟨1,0,0⟩, 5, 0, 0⟩,
   ⟨⟨1,0,0⟩, ⟨1,0,0⟩, ⟨10,0,0⟩, ⟨10,0,0⟩, ⟨1,0,0⟩, 1, 0, 0⟩,
   ⟨⟨2,0,0⟩, ⟨2,0,0⟩, ⟨20,0,0⟩, ⟨20,0,0⟩, ⟨1,0,0⟩, 1, 0, 0⟩,
   ⟨⟨3,0,0⟩, ⟨3,0,0⟩, ⟨30,0,0⟩, ⟨30,0,0⟩, ⟨1,0,0⟩, 1, 0, 0⟩]

/-- A new non-duplicate contact, shallower than slot 0 of `cexManifold4`. -/
def cexNewContact : ContactPoint :=
  ⟨⟨10,0,0⟩, ⟨10,0,0⟩, ⟨100,0,0⟩, ⟨100,0,0⟩, ⟨1,0,0⟩, 1/2, 0, 0⟩

unseal Rat.add Rat.mul Rat.sub Rat.inv in
/-- Claim C4 as stated is false: when all three candidate areas are zero
(collinear local points), `getMaxArea` ties to index 0, and if slot 0 is the
protected deepest contact it is removed anyway.  On `cexManifold4` the new
contact is strictly shallower than slot 0 (1/2 < 5), `getIndexOfDeepestPenetration`
protects slot 0, yet `addContactPoint` removes exactly that slot. -/
theorem manifold_keepbest_counterexample :
    cexManifold4.length = 4 ∧
    cexNewContact.penetrationDepth < (slot cexManifold4 0).penetrationDepth ∧
    getIndexOfDeepestPenetration cexManifold4 cexNewContact = 0 ∧
    getIndexToRemove cexManifold4 0 cexNewContact.localPoint1 = 0 ∧
    slot cexManifold4 0 ∉ addContactPoint (3/100) cexManifold4 cexNewContact ∧
    (addContactPoint (3/100) cexManifold4 cexNewContact).length = 4 := by
  refine ⟨by decide, by decide, by decide, by decide, by decide, by decide⟩

/-- Claim C4 (amended): on a full manifold receiving a non-duplicate contact
with some existing contact strictly deeper, *provided at least one of the
three candidate quadrilateral areas is nonzero*, the protected deepest slot
is never the one removed; the removed slot carries the largest candidate
area (squared cross product of the estimated diagonals after replacing that
slot by the new point), and the new contact is then appended. -/
theorem manifold_keepbest (threshold : ℚ) (m : Contacts) (c : ContactPoint)
    (h4 : m.length = MAX_CONTACT_POINTS_IN_MANIFOLD)
    (hnodup : ∀ x ∈ m,
      threshold * threshold < ((x.worldPoint1.sub c.worldPoint1).lengthSquare))
    (himax : 0 ≤ getIndexOfDeepestPenetration m c)
    (hpos : ∃ k, 0 ≤ k ∧ k ≤ 3 ∧ k ≠ getIndexOfDeepestPenetration m c ∧
      0 < areaAt m c.localPoint1 k) :
    c.penetrationDepth <
      (slot m (getIndexOfDeepestPenetration m c).toNat).penetrationDepth ∧
    (∀ i, i < m.length → (slot m i).penetrationDepth ≤
      (slot m (getIndexOfDeepestPenetration m c).toNat).penetrationDepth) ∧
    getIndexToRemove m (getIndexOfDeepestPenetration m c) c.localPoint1
      ≠ getIndexOfDeepestPenetration m c ∧
    (∀ k : ℤ, 0 ≤ k → k ≤ 3 → k ≠ getIndexOfDeepestPenetration m c →
      areaAt m c.localPoint1 k ≤ areaAt m c.localPoint1
        (getIndexToRemove m (getIndexOfDeepestPenetration m c) c.localPoint1)) ∧
    addContactPoint threshold m c =
      removeContactPoint m
        (getIndexToRemove m (getIndexOfDeepestPenetration m c) c.localPoint1).toNat
      ++ [c] := by
  have hspec := getIndexOfDeepestPenetration_spec m c
  rcases hspec with ⟨hneg, _⟩ | ⟨_, hlt, hdeep, hdom⟩
  · rw [hneg] at himax; omega
  have himax3 : getIndexOfDeepestPenetration m c ≤ 3 := by
    rw [h4, MAX_CONTACT_POINTS_IN_MANIFOLD] at hlt
    omega
  obtain ⟨hrne, _, _, hrdom⟩ :=
    getIndexToRemove_spec m (getIndexOfDeepestPenetration m c) c.localPoint1
      himax himax3 hpos
  refine ⟨hdeep, hdom, hrne, hrdom, ?_⟩
  rw [addContactPoint]
  rw [if_neg, if_pos h4]
  rw [List.any_eq_true]
  rintro ⟨x, hx, hxd⟩
  rw [decide_eq_true_iff] at hxd
  exact absurd (hnodup x hx) (not_lt.2 hxd)

unseal Rat.add Rat.mul Rat.sub Rat.inv in
/-- Witness for the amended claim C4: a full manifold with the local points
at the corners of a unit square, slot 0 strictly deepest, and a shallower
new contact. -/
theorem manifold_keepbest_witness :
    let mW : Contacts :=
      [⟨⟨0,0,0⟩, ⟨0,0,0⟩, ⟨0,0,0⟩, ⟨0,0,0⟩, ⟨1,0,0⟩, 5, 0, 0⟩,
       ⟨⟨1,0,0⟩, ⟨1,0,0⟩, ⟨10,0,0⟩, ⟨10,0,0⟩, ⟨1,0,0⟩, 1, 0, 0⟩,
       ⟨⟨1,1,0⟩, ⟨1,1,0⟩, ⟨10,10,0⟩, ⟨10,10,0⟩, ⟨1,0,0⟩, 1, 0, 0⟩,
       ⟨⟨0,1,0⟩, ⟨0,1,0⟩, ⟨0,10,0⟩, ⟨0,10,0⟩, ⟨1,0,0⟩, 1, 0, 0⟩]
    let cW : ContactPoint :=
      ⟨⟨2,2,0⟩, ⟨2,2,0⟩, ⟨100,0,0⟩, ⟨100,0,0⟩, ⟨1,0,0⟩, 1/2, 0, 0⟩
    cW.penetrationDepth <
      (slot mW (getIndexOfDeepestPenetration mW cW).toNat).penetrationDepth ∧
    (∀ i, i < mW.length → (slot mW i).penetrationDepth ≤
      (slot mW (getIndexOfDeepestPenetration mW cW).toNat).penetrationDepth) ∧
    getIndexToRemove mW (getIndexOfDeepestPenetration mW cW) cW.localPoint1
      ≠ getIndexOfDeepestPenetration mW cW ∧
    (∀ k : ℤ, 0 ≤ k → k ≤ 3 → k ≠ getIndexOfDeepestPenetration mW cW →
      areaAt mW cW.localPoint1 k ≤ areaAt mW cW.localPoint1
        (getIndexToRemove mW (getIndexOfDeepestPenetration mW cW) cW.localPoint1)) ∧
    addContactPoint (3/100) mW cW =
      removeContactPoint mW
        (getIndexToRemove mW (getIndexOfDeepestPenetration mW cW) cW.localPoint1).toNat
      ++ [cW] :=
  manifold_keepbest (3/100) _ _ (by decide)
    (by decide)
    (by decide)
    ⟨1, by decide, by decide, by decide, by decide⟩

end ContactManifold

/-! ### Pool memory allocator (MemoryAllocator.cpp)

Heap pointers are embedded as abstract identifiers: `Pointer.system`
carries a fresh identifier produced by the system `malloc`,
`Pointer.unit b u` names unit `u` of pool block `b`.  A ghost trace
`systemFreed` records the pointers handed to the system `free`. -/

namespace MemoryAllocator

/-- Modelled from the spec: `NB_HEAPS`, the number of size-class bins
("8-byte granular up to a cap of 1024 bytes": 128 bins). -/
def NB_HEAPS : ℕ := 128

/-- Modelled from the spec: `MAX_UNIT_SIZE`, the cap (1024 bytes) above
which allocations fall through to the system allocator. -/
def MAX_UNIT_SIZE : ℕ := 1024

/-- Modelled from the spec: `BLOCK_SIZE`, the page-sized backing block. -/
def BLOCK_SIZE : ℕ := 4096

/-- `mUnitSizes[j] = (j+1)*8` (MemoryAllocator.cpp:40). -/
def mUnitSizes (j : ℕ) : ℕ := (j + 1) * 8

/-- The `mMapSizeToHeapIndex` lookup table as built by the constructor loop
(MemoryAllocator.cpp:45): entry 0 is `-1`, then a running bin index that
advances whenever the size leaves the current bin. -/
def mMapSizeToHeapIndexTable : List ℤ :=
  let rec go (i j : ℕ) : ℕ → List ℤ
    | 0 => []
    | fuel + 1 =>
        if i ≤ mUnitSizes j then (j : ℤ) :: go (i + 1) j fuel
        else ((j : ℤ) + 1) :: go (i + 1) (j + 1) fuel
  (-1) :: go 1 0 MAX_UNIT_SIZE

def mMapSizeToHeapIndex (size : ℕ) : ℤ :=
  mMapSizeToHeapIndexTable.getD size (-1)

inductive Pointer where
  | null : Pointer
  | system : ℕ → Pointer
  | unit : ℕ → ℕ → Pointer
deriving DecidableEq, Repr

/-- The allocator state: per-bin free-unit lists, block counters, a fresh
supply for system allocations, the ghost trace of system frees, and the
debug call-balance counter. -/
structure State where
  mFreeMemoryUnits : List (List Pointer)
  mNbAllocatedMemoryBlocks : ℕ
  mNbCurrentMemoryBlocks : ℕ
  freshSystem : ℕ
  systemFreed : List Pointer
  mNbTimesAllocateMethodCalled : ℤ
deriving DecidableEq, Repr

/-- The constructor's state (MemoryAllocator.cpp:20): 64 block slots, no
blocks carved, all free lists empty. -/
def initState : State :=
  { mFreeMemoryUnits := List.replicate NB_HEAPS []
    mNbAllocatedMemoryBlocks := 64
    mNbCurrentMemoryBlocks := 0
    freshSystem := 0
    systemFreed := []
    mNbTimesAllocateMethodCalled := 0 }

/-- `MemoryAllocator::allocate` (MemoryAllocator.cpp:80). -/
def allocate (s : State) (size : ℕ) : Pointer × State :=
  if size = 0 then (Pointer.null, s)
  else
    let s := { s with mNbTimesAllocateMethodCalled := s.mNbTimesAllocateMethodCalled + 1 }
    if MAX_UNIT_SIZE < size then
      (Pointer.system s.freshSystem, { s with freshSystem := s.freshSystem + 1 })
    else
      let indexHeap := (mMapSizeToHeapIndex size).toNat
      match (s.mFreeMemoryUnits.getD indexHeap []) with
      | u :: rest =>
          (u, { s with mFreeMemoryUnits := s.mFreeMemoryUnits.set indexHeap rest })
      | [] =>
          let s :=
            if s.mNbCurrentMemoryBlocks = s.mNbAllocatedMemoryBlocks then
              { s with mNbAllocatedMemoryBlocks := s.mNbAllocatedMemoryBlocks + 64 }
            else s
          let blockIdx := s.mNbCurrentMemoryBlocks
          let unitSize := mUnitSizes indexHeap
          let nbUnits := BLOCK_SIZE / unitSize
          let chain := (List.range (nbUnits - 1)).map fun k => Pointer.unit blockIdx (k + 1)
          (Pointer.unit blockIdx 0,
            { s with
              mFreeMemoryUnits := s.mFreeMemoryUnits.set indexHeap chain
              mNbCurrentMemoryBlocks := s.mNbCurrentMemoryBlocks + 1 })

/-- `MemoryAllocator::release` (MemoryAllocator.cpp:148). -/
def release (s : State) (pointer : Pointer) (size : ℕ) : State :=
  if size = 0 then s
  else
    let s := { s with mNbTimesAllocateMethodCalled := s.mNbTimesAllocateMethodCalled - 1 }
    if MAX_UNIT_SIZE < size then
      { s with systemFreed := s.systemFreed ++ [pointer] }
    else
      let indexHeap := (mMapSizeToHeapIndex size).toNat
      { s with mFreeMemoryUnits :=
          (s.mFreeMemoryUnits.set indexHeap
            (pointer :: s.mFreeMemoryUnits.getD indexHeap [])) }

/-- Claim C10: `allocate(0)` returns NULL with the allocator state (free
lists, counters, even the debug counter) unchanged; `release(p, 0)` returns
without touching any free list; and for any size strictly above the maximum
unit size, `allocate` falls through to the system `malloc` (a fresh system
pointer, all pool free lists and block counters unchanged) and `release`
falls through to the system `free` (the pointer is handed to the system,
all pool free lists unchanged). -/
theorem allocator_zero_and_fallthrough (s : State) (p : Pointer) (size : ℕ) :
    allocate s 0 = (Pointer.null, s) ∧
    release s p 0 = s ∧
    (MAX_UNIT_SIZE < size →
      (allocate s size).1 = Pointer.system s.freshSystem ∧
      (allocate s size).2.mFreeMemoryUnits = s.mFreeMemoryUnits ∧
      (allocate s size).2.mNbCurrentMemoryBlocks = s.mNbCurrentMemoryBlocks ∧
      (allocate s size).2.mNbAllocatedMemoryBlocks = s.mNbAllocatedMemoryBlocks ∧
      (release s p size).mFreeMemoryUnits = s.mFreeMemoryUnits ∧
      (release s p size).systemFreed = s.systemFreed ++ [p]) := by
  refine ⟨rfl, rfl, ?_⟩
  intro hsize
  have hne : size ≠ 0 := by
    rw [MAX_UNIT_SIZE] at hsize; omega
  rw [allocate, release, if_neg hne, if_neg hne, if_pos hsize, if_pos hsize]
  exact ⟨rfl, rfl, rfl, rfl, rfl, rfl⟩

/-- Witness for claim C10 at the freshly constructed allocator and a
2000-byte request. -/
theorem allocator_zero_and_fallthrough_witness :
    allocate initState 0 = (Pointer.null, initState) ∧
    release initState (Pointer.system 7) 0 = initState ∧
    (MAX_UNIT_SIZE < 2000 →
      (allocate initState 2000).1 = Pointer.system initState.freshSystem ∧
      (allocate initState 2000).2.mFreeMemoryUnits = initState.mFreeMemoryUnits ∧
      (allocate initState 2000).2.mNbCurrentMemoryBlocks
        = initState.mNbCurrentMemoryBlocks ∧
      (allocate initState 2000).2.mNbAllocatedMemoryBlocks
        = initState.mNbAllocatedMemoryBlocks ∧
      (release initState (Pointer.system 7) 2000).mFreeMemoryUnits
        = initState.mFreeMemoryUnits ∧
      (release initState (Pointer.system 7) 2000).systemFreed
        = initState.systemFreed ++ [Pointer.system 7]) :=
  allocator_zero_and_fallthrough initState (Pointer.system 7) 2000

end MemoryAllocator

/-! ### AABBs, rays and the dynamic AABB tree (AABB.cpp, DynamicAABBTree.cpp)

The node array is embedded as a list indexed by the node identifiers of the
source; every raw array access is bounds-checked (`Option`), loops carry
explicit fuel.  `assert`s of the source are release-build no-ops and are
not modelled, except in the structural checker `check`, whose assertions
are the behaviour under scrutiny and are modelled as a `Bool` verdict. -/

structure AABB where
  m_minCoordinates : Vector3
  m_maxCoordinates : Vector3
deriving DecidableEq, Repr

namespace AABB

/-- `AABB::mergeTwoAABBs` (AABB.cpp:45). -/
def mergeTwoAABBs (aabb1 aabb2 : AABB) : AABB :=
  ⟨⟨min aabb1.m_minCoordinates.x aabb2.m_minCoordinates.x,
    min aabb1.m_minCoordinates.y aabb2.m_minCoordinates.y,
    min aabb1.m_minCoordinates.z aabb2.m_minCoordinates.z⟩,
   ⟨max aabb1.m_maxCoordinates.x aabb2.m_maxCoordinates.x,
    max aabb1.m_maxCoordinates.y aabb2.m_maxCoordinates.y,
    max aabb1.m_maxCoordinates.z aabb2.m_maxCoordinates.z⟩⟩

/-- `AABB::contains` (AABB.cpp:55). -/
def contains (a aabb : AABB) : Bool :=
  decide (a.m_minCoordinates.x ≤ aabb.m_minCoordinates.x) &&
  decide (a.m_minCoordinates.y ≤ aabb.m_minCoordinates.y) &&
  decide (a.m_minCoordinates.z ≤ aabb.m_minCoordinates.z) &&
  decide (a.m_maxCoordinates.x ≥ aabb.m_maxCoordinates.x) &&
  decide (a.m_maxCoordinates.y ≥ aabb.m_maxCoordinates.y) &&
  decide (a.m_maxCoordinates.z ≥ aabb.m_maxCoordinates.z)

/-- `AABB::getVolume`. Modelled from the spec: the volume of the box (the
inline accessor is not among the provided sources); used by the insertion
cost heuristic and the structural checker. -/
def getVolume (a : AABB) : ℚ :=
  (a.m_maxCoordinates.x - a.m_minCoordinates.x) *
  (a.m_maxCoordinates.y - a.m_minCoordinates.y) *
  (a.m_maxCoordinates.z - a.m_minCoordinates.z)

end AABB

/-- The broad-phase ray.  Modelled from the spec: origin, end point, and a
maximum fraction clipping the segment (Ray.h is not among the provided
sources; `DynamicAABBTree::raycast` reads exactly these three fields). -/
structure Ray where
  point1 : Vector3
  point2 : Vector3
  maxFraction : ℚ
deriving DecidableEq, Repr

namespace AABB

/-- `AABB::testRayIntersect` (AABB.cpp:112): separating-axis test of the
clipped segment against the box. -/
def testRayIntersect (a : AABB) (ray : Ray) : Bool :=
  let point2 := ray.point1.add ((ray.point2.sub ray.point1).smul ray.maxFraction)
  let e := a.m_maxCoordinates.sub a.m_minCoordinates
  let d := point2.sub ray.point1
  let m := ((ray.point1.add point2).sub a.m_minCoordinates).sub a.m_maxCoordinates
  let adx := |d.x|
  if |m.x| > e.x + adx then false
  else
    let ady := |d.y|
    if |m.y| > e.y + ady then false
    else
      let adz := |d.z|
      if |m.z| > e.z + adz then false
      else
        let epsilon : ℚ := mkRat 1 100000
        let adx := adx + epsilon
        let ady := ady + epsilon
        let adz := adz + epsilon
        if |m.y * d.z - m.z * d.y| > e.y * adz + e.z * ady then false
        else if |m.z * d.x - m.x * d.z| > e.x * adz + e.z * adx then false
        else if |m.x * d.y - m.y * d.x| > e.x * ady + e.y * adx then false
        else true

end AABB

namespace DynamicTree

/-- `TreeNode::NULL_TREE_NODE` (DynamicAABBTree.cpp:16). -/
def NULL_TREE_NODE : ℤ := -1

/-- Modelled from the spec: `DYNAMIC_TREE_AABB_LIN_GAP_MULTIPLIER`, the
"signed multiple of the predicted displacement" used to inflate the fat
AABB in the motion direction (1.7 in the original library; the
configuration header is not among the provided sources). -/
def DYNAMIC_TREE_AABB_LIN_GAP_MULTIPLIER : ℚ := mkRat 17 10

/-- A tree node.  The source stores `parentID`/`nextNodeID` in one union
(`parentID` doubles as the free-list link) and `children`/`dataInt` in
another (a leaf's child slots hold its user data). -/
structure TreeNode where
  parentID : ℤ
  child1 : ℤ
  child2 : ℤ
  height : ℤ
  aabb : AABB
deriving DecidableEq, Repr

/-- The `nextNodeID` member of the union (same storage as `parentID`). -/
def TreeNode.nextNodeID (n : TreeNode) : ℤ := n.parentID

/-- `TreeNode::isLeaf`. Modelled from the spec: "leaf height = 0" (the
inline definition is not among the provided sources). -/
def TreeNode.isLeaf (n : TreeNode) : Bool := n.height == 0

structure DynamicAABBTree where
  mNodes : List TreeNode
  m_rootNodeID : ℤ
  mFreeNodeID : ℤ
  mNbNodes : ℤ
  mNbAllocatedNodes : ℤ
  mExtraAABBGap : ℚ
deriving DecidableEq, Repr

abbrev Tree := DynamicAABBTree

/-- Bounds-checked node read (`mNodes[i]`). -/
def nodeAt (t : Tree) (i : ℤ) : Option TreeNode :=
  if h : 0 ≤ i ∧ i.toNat < t.mNodes.length then some (t.mNodes.get ⟨i.toNat, h.2⟩)
  else none

/-- Bounds-checked node write. -/
def setNode (t : Tree) (i : ℤ) (f : TreeNode → TreeNode) : Option Tree :=
  match nodeAt t i with
  | none => none
  | some n => some { t with mNodes := t.mNodes.set i.toNat (f n) }

/-- A node of the initial / grown free chain: `nextNodeID` links to the
next slot (`NULL_TREE_NODE` for the last), height `-1`, zeroed data
(`memset` in the source). -/
def freshNode (next : ℤ) : TreeNode :=
  ⟨next, 0, 0, -1, ⟨Vector3.zero, Vector3.zero⟩⟩

/-- The chain of fresh nodes for slots `[start, start+count)`, the last one
linking to `NULL_TREE_NODE`. -/
def freshChain (start count : ℕ) : List TreeNode :=
  (List.range count).map fun k =>
    if k + 1 = count then freshNode NULL_TREE_NODE
    else freshNode (Int.ofNat (start + k + 1))

/-- `DynamicAABBTree::init` (DynamicAABBTree.cpp:32): 8 allocated slots,
all chained on the free list. -/
def initTree (extraAABBGap : ℚ) : Tree :=
  { mNodes := freshChain 0 8
    m_rootNodeID := NULL_TREE_NODE
    mFreeNodeID := 0
    mNbNodes := 0
    mNbAllocatedNodes := 8
    mExtraAABBGap := extraAABBGap }

/-- `DynamicAABBTree::allocateNode` (DynamicAABBTree.cpp:64): pop the free
list, doubling the node array first when the free list is empty. -/
def allocateNode (t : Tree) : Option (ℤ × Tree) := do
  let t ←
    if t.mFreeNodeID = NULL_TREE_NODE then do
      let newCap := t.mNbAllocatedNodes * 2
      let keep := t.mNodes.take t.mNbNodes.toNat
      let grown := keep ++ freshChain t.mNbNodes.toNat (newCap.toNat - t.mNbNodes.toNat)
      pure { t with
        mNbAllocatedNodes := newCap
        mNodes := grown
        mFreeNodeID := t.mNbNodes }
    else pure t
  let freeNodeID := t.mFreeNodeID
  let n ← nodeAt t freeNodeID
  let t := { t with mFreeNodeID := n.nextNodeID }
  let t ← setNode t freeNodeID fun n => { n with parentID := NULL_TREE_NODE, height := 0 }
  let t := { t with mNbNodes := t.mNbNodes + 1 }
  pure (freeNodeID, t)

/-- `DynamicAABBTree::releaseNode` (DynamicAABBTree.cpp:100). -/
def releaseNode (t : Tree) (nodeID : ℤ) : Option Tree := do
  let t ← setNode t nodeID fun n => { n with parentID := t.mFreeNodeID, height := -1 }
  pure { t with mFreeNodeID := nodeID, mNbNodes := t.mNbNodes - 1 }

/-- The sibling-selection descent of `DynamicAABBTree::insertLeafNode`
(DynamicAABBTree.cpp:220): walk down while the surface-area-style cost
favours a child, stop at the chosen sibling. -/
def insertDescend (t : Tree) (newNodeAABB : AABB) : ℤ → ℕ → Option ℤ
  | currentNodeID, 0 => do
      if (← nodeAt t currentNodeID).isLeaf then pure currentNodeID else none
  | currentNodeID, fuel + 1 => do
      let current ← nodeAt t currentNodeID
      if current.isLeaf then
        pure currentNodeID
      else
        let leftChild := current.child1
        let rightChild := current.child2
        let left ← nodeAt t leftChild
        let right ← nodeAt t rightChild
        let volumeAABB := current.aabb.getVolume
        let mergedVolume := (AABB.mergeTwoAABBs current.aabb newNodeAABB).getVolume
        let costS := 2 * mergedVolume
        let costI := 2 * (mergedVolume - volumeAABB)
        let costLeft :=
          if left.isLeaf then (AABB.mergeTwoAABBs newNodeAABB left.aabb).getVolume + costI
          else costI + (AABB.mergeTwoAABBs newNodeAABB left.aabb).getVolume
            - left.aabb.getVolume
        let costRight :=
          if right.isLeaf then (AABB.mergeTwoAABBs newNodeAABB right.aabb).getVolume + costI
          else costI + (AABB.mergeTwoAABBs newNodeAABB right.aabb).getVolume
            - right.aabb.getVolume
        if costS < costLeft ∧ costS < costRight then
          pure currentNodeID
        else if costLeft < costRight then
          insertDescend t newNodeAABB leftChild fuel
        else
          insertDescend t newNodeAABB rightChild fuel

/-- Relinking the promoted subtree root into the old root's parent (or the
tree root), common to both rotation directions of
`DynamicAABBTree::balanceSubTreeAtNode` (DynamicAABBTree.cpp:447, 517). -/
def balanceFixParentLink (t : Tree) (nodeID newRootID parentID : ℤ) : Option Tree :=
  if parentID ≠ NULL_TREE_NODE then do
    let p ← nodeAt t parentID
    if p.child1 = nodeID then
      setNode t parentID fun n => { n with child1 := newRootID }
    else
      setNode t parentID fun n => { n with child2 := newRootID }
  else
    pure { t with m_rootNodeID := newRootID }

/-- The tail of a rotation (both directions, DynamicAABBTree.cpp:465-495 and
535-565): the taller grandchild `iUp` stays under the promoted root `iTop`,
the shorter one `iDown` moves under the old root `nodeID`, whose other
child is `keep`; both touched nodes get their AABBs and heights recomputed
from their children. -/
def balanceFinish (t : Tree) (nodeID iTop iUp iDown : ℤ) (keep nodeUp nodeDown : TreeNode)
    (downIsLeft : Bool) : Option (ℤ × Tree) := do
  let t ← setNode t iTop fun n => { n with child2 := iUp }
  let t ←
    if downIsLeft then
      setNode t nodeID fun n => { n with child1 := iDown }
    else
      setNode t nodeID fun n => { n with child2 := iDown }
  let t ← setNode t iDown fun n => { n with parentID := nodeID }
  let t ← setNode t nodeID fun n =>
    { n with aabb := AABB.mergeTwoAABBs keep.aabb nodeDown.aabb,
             height := max keep.height nodeDown.height + 1 }
  let newA ← nodeAt t nodeID
  let t ← setNode t iTop fun n =>
    { n with aabb := AABB.mergeTwoAABBs newA.aabb nodeUp.aabb,
             height := max newA.height nodeUp.height + 1 }
  pure (iTop, t)

/-- The right-heavy rotation branch of `balanceSubTreeAtNode`
(DynamicAABBTree.cpp:432-499): promote the right child C. -/
def balanceRightHeavy (t : Tree) (nodeID nodeCID : ℤ) (nodeA nodeB nodeC : TreeNode) :
    Option (ℤ × Tree) := do
  let nodeFID := nodeC.child1
  let nodeGID := nodeC.child2
  let nodeF ← nodeAt t nodeFID
  let nodeG ← nodeAt t nodeGID
  let t ← setNode t nodeCID fun n =>
    { n with child1 := nodeID, parentID := nodeA.parentID }
  let t ← setNode t nodeID fun n => { n with parentID := nodeCID }
  let t ← balanceFixParentLink t nodeID nodeCID nodeA.parentID
  if nodeG.height < nodeF.height then
    balanceFinish t nodeID nodeCID nodeFID nodeGID nodeB nodeF nodeG false
  else
    balanceFinish t nodeID nodeCID nodeGID nodeFID nodeB nodeG nodeF false

/-- The left-heavy rotation branch of `balanceSubTreeAtNode`
(DynamicAABBTree.cpp:502-569): promote the left child B. -/
def balanceLeftHeavy (t : Tree) (nodeID nodeBID : ℤ) (nodeA nodeB nodeC : TreeNode) :
    Option (ℤ × Tree) := do
  let nodeFID := nodeB.child1
  let nodeGID := nodeB.child2
  let nodeF ← nodeAt t nodeFID
  let nodeG ← nodeAt t nodeGID
  let t ← setNode t nodeBID fun n =>
    { n with child1 := nodeID, parentID := nodeA.parentID }
  let t ← setNode t nodeID fun n => { n with parentID := nodeBID }
  let t ← balanceFixParentLink t nodeID nodeBID nodeA.parentID
  if nodeG.height < nodeF.height then
    balanceFinish t nodeID nodeBID nodeFID nodeGID nodeC nodeF nodeG true
  else
    balanceFinish t nodeID nodeBID nodeGID nodeFID nodeC nodeG nodeF true

/-- `DynamicAABBTree::balanceSubTreeAtNode` (DynamicAABBTree.cpp:407):
one rotation when the two subtree heights differ by more than one;
returns the (possibly new) root of the subtree. -/
def balanceSubTreeAtNode (t : Tree) (nodeID : ℤ) : Option (ℤ × Tree) := do
  let nodeA ← nodeAt t nodeID
  if nodeA.isLeaf ∨ nodeA.height < 2 then
    pure (nodeID, t)
  else
    let nodeB ← nodeAt t nodeA.child1
    let nodeC ← nodeAt t nodeA.child2
    let balanceFactor := nodeC.height - nodeB.height
    if 1 < balanceFactor then
      balanceRightHeavy t nodeID nodeA.child2 nodeA nodeB nodeC
    else if balanceFactor < -1 then
      balanceLeftHeavy t nodeID nodeA.child1 nodeA nodeB nodeC
    else
      pure (nodeID, t)

/-- The refit walk shared by `insertLeafNode` (DynamicAABBTree.cpp:309) and
`removeLeafNode` (DynamicAABBTree.cpp:374): from a node up to the root,
rebalance, then recompute the height and the AABB from the two children
(the two loops differ only in the order of those two independent
assignments). -/
def refitLoop (t : Tree) : ℤ → ℕ → Option Tree
  | currentNodeID, 0 =>
      if currentNodeID = NULL_TREE_NODE then some t else none
  | currentNodeID, fuel + 1 => do
      if currentNodeID = NULL_TREE_NODE then
        pure t
      else
        let (currentNodeID, t) ← balanceSubTreeAtNode t currentNodeID
        let current ← nodeAt t currentNodeID
        let leftChild := current.child1
        let rightChild := current.child2
        let left ← nodeAt t leftChild
        let right ← nodeAt t rightChild
        let t ← setNode t currentNodeID fun n =>
          { n with height := max left.height right.height + 1,
                   aabb := AABB.mergeTwoAABBs left.aabb right.aabb }
        let current ← nodeAt t currentNodeID
        refitLoop t current.parentID fuel

/-- `DynamicAABBTree::insertLeafNode` (DynamicAABBTree.cpp:206). -/
def insertLeafNode (t : Tree) (nodeID : ℤ) (fuel : ℕ) : Option Tree := do
  if t.m_rootNodeID = NULL_TREE_NODE then
    let t := { t with m_rootNodeID := nodeID }
    setNode t t.m_rootNodeID fun n => { n with parentID := NULL_TREE_NODE }
  else
    let newNodeAABB := (← nodeAt t nodeID).aabb
    let siblingNode ← insertDescend t newNodeAABB t.m_rootNodeID fuel
    let oldParentNode := (← nodeAt t siblingNode).parentID
    let (newParentNode, t) ← allocateNode t
    let sibling ← nodeAt t siblingNode
    let t ← setNode t newParentNode fun n =>
      { n with parentID := oldParentNode,
               aabb := AABB.mergeTwoAABBs sibling.aabb newNodeAABB,
               height := sibling.height + 1 }
    let t ←
      if oldParentNode ≠ NULL_TREE_NODE then do
        let oldParent ← nodeAt t oldParentNode
        let t ←
          if oldParent.child1 = siblingNode then
            setNode t oldParentNode fun n => { n with child1 := newParentNode }
          else
            setNode t oldParentNode fun n => { n with child2 := newParentNode }
        let t ← setNode t newParentNode fun n =>
          { n with child1 := siblingNode, child2 := nodeID }
        let t ← setNode t siblingNode fun n => { n with parentID := newParentNode }
        setNode t nodeID fun n => { n with parentID := newParentNode }
      else do
        let t ← setNode t newParentNode fun n =>
          { n with child1 := siblingNode, child2 := nodeID }
        let t ← setNode t siblingNode fun n => { n with parentID := newParentNode }
        let t ← setNode t nodeID fun n => { n with parentID := newParentNode }
        pure { t with m_rootNodeID := newParentNode }
    let leafNode ← nodeAt t nodeID
    refitLoop t leafNode.parentID fuel

/-- `DynamicAABBTree::removeLeafNode` (DynamicAABBTree.cpp:336). -/
def removeLeafNode (t : Tree) (nodeID : ℤ) (fuel : ℕ) : Option Tree := do
  if t.m_rootNodeID = nodeID then
    pure { t with m_rootNodeID := NULL_TREE_NODE }
  else
    let parentNodeID := (← nodeAt t nodeID).parentID
    let parent ← nodeAt t parentNodeID
    let grandParentNodeID := parent.parentID
    let siblingNodeID := if parent.child1 = nodeID then parent.child2 else parent.child1
    if grandParentNodeID ≠ NULL_TREE_NODE then do
      let grandParent ← nodeAt t grandParentNodeID
      let t ←
        if grandParent.child1 = parentNodeID then
          setNode t grandParentNodeID fun n => { n with child1 := siblingNodeID }
        else
          setNode t grandParentNodeID fun n => { n with child2 := siblingNodeID }
      let t ← setNode t siblingNodeID fun n => { n with parentID := grandParentNodeID }
      let t ← releaseNode t parentNodeID
      refitLoop t grandParentNodeID fuel
    else do
      let t := { t with m_rootNodeID := siblingNodeID }
      let t ← setNode t siblingNodeID fun n => { n with parentID := NULL_TREE_NODE }
      releaseNode t parentNodeID

/-- `DynamicAABBTree::addObjectInternal` (DynamicAABBTree.cpp:112): allocate
a leaf, give it the gap-inflated fat AABB, insert it. -/
def addObjectInternal (t : Tree) (aabb : AABB) (fuel : ℕ) : Option (ℤ × Tree) := do
  let (nodeID, t) ← allocateNode t
  let gap : Vector3 := ⟨t.mExtraAABBGap, t.mExtraAABBGap, t.mExtraAABBGap⟩
  let t ← setNode t nodeID fun n =>
    { n with aabb := ⟨aabb.m_minCoordinates.sub gap, aabb.m_maxCoordinates.add gap⟩,
             height := 0 }
  let t ← insertLeafNode t nodeID fuel
  pure (nodeID, t)

/-- `DynamicAABBTree::addObject(aabb, data1, data2)`.  Modelled from the
spec: the public insertion stores the two user data integers in the leaf's
data slots (the `children`/`dataInt` union) after `addObjectInternal`. -/
def addObject (t : Tree) (aabb : AABB) (data1 data2 : ℤ) (fuel : ℕ) :
    Option (ℤ × Tree) := do
  let (nodeID, t) ← addObjectInternal t aabb fuel
  let t ← setNode t nodeID fun n => { n with child1 := data1, child2 := data2 }
  pure (nodeID, t)

/-- `DynamicAABBTree::removeObject` (DynamicAABBTree.cpp:136). -/
def removeObject (t : Tree) (nodeID : ℤ) (fuel : ℕ) : Option Tree := do
  let t ← removeLeafNode t nodeID fuel
  releaseNode t nodeID

/-- `DynamicAABBTree::updateObject` (DynamicAABBTree.cpp:153): no-op when
the fat AABB still contains the new one (unless forced), otherwise remove,
re-inflate (constant gap plus the signed displacement inflation), and
re-insert. -/
def updateObject (t : Tree) (nodeID : ℤ) (newAABB : AABB) (displacement : Vector3)
    (forceReinsert : Bool) (fuel : ℕ) : Option (Bool × Tree) := do
  let node ← nodeAt t nodeID
  if ¬ forceReinsert ∧ node.aabb.contains newAABB then
    pure (false, t)
  else
    let t ← removeLeafNode t nodeID fuel
    let gap : Vector3 := ⟨t.mExtraAABBGap, t.mExtraAABBGap, t.mExtraAABBGap⟩
    let fat0 : AABB := ⟨newAABB.m_minCoordinates.sub gap, newAABB.m_maxCoordinates.add gap⟩
    let fat1 : AABB :=
      if displacement.x < 0 then
        { fat0 with m_minCoordinates :=
            { fat0.m_minCoordinates with
              x := fat0.m_minCoordinates.x
                + DYNAMIC_TREE_AABB_LIN_GAP_MULTIPLIER * displacement.x } }
      else
        { fat0 with m_maxCoordinates :=
            { fat0.m_maxCoordinates with
              x := fat0.m_maxCoordinates.x
                + DYNAMIC_TREE_AABB_LIN_GAP_MULTIPLIER * displacement.x } }
    let fat2 : AABB :=
      if displacement.y < 0 then
        { fat1 with m_minCoordinates :=
            { fat1.m_minCoordinates with
              y := fat1.m_minCoordinates.y
                + DYNAMIC_TREE_AABB_LIN_GAP_MULTIPLIER * displacement.y } }
      else
        { fat1 with m_maxCoordinates :=
            { fat1.m_maxCoordinates with
              y := fat1.m_maxCoordinates.y
                + DYNAMIC_TREE_AABB_LIN_GAP_MULTIPLIER * displacement.y } }
    let fat3 : AABB :=
      if displacement.z < 0 then
        { fat2 with m_minCoordinates :=
            { fat2.m_minCoordinates with
              z := fat2.m_minCoordinates.z
                + DYNAMIC_TREE_AABB_LIN_GAP_MULTIPLIER * displacement.z } }
      else
        { fat2 with m_maxCoordinates :=
            { fat2.m_maxCoordinates with
              z := fat2.m_maxCoordinates.z
                + DYNAMIC_TREE_AABB_LIN_GAP_MULTIPLIER * displacement.z } }
    let t ← setNode t nodeID fun n => { n with aabb := fat3 }
    let t ← insertLeafNode t nodeID fuel
    pure (true, t)

/-- `DynamicAABBTree::computeHeight(nodeID)` (DynamicAABBTree.cpp:756). -/
def computeHeightOf (t : Tree) : ℤ → ℕ → Option ℤ
  | _, 0 => none
  | nodeID, fuel + 1 => do
      let node ← nodeAt t nodeID
      if node.isLeaf then
        pure 0
      else do
        let leftHeight ← computeHeightOf t node.child1 fuel
        let rightHeight ← computeHeightOf t node.child2 fuel
        pure (1 + max leftHeight rightHeight)

/-- `DynamicAABBTree::computeHeight()` (DynamicAABBTree.cpp:751). -/
def computeHeight (t : Tree) (fuel : ℕ) : Option ℤ :=
  computeHeightOf t t.m_rootNodeID fuel

/-! #### The structural checker (debug builds) -/

/-- `DynamicAABBTree::checkNode` (DynamicAABBTree.cpp:698), with each
`assert` of the source embedded as a conjunct of the verdict: `false` means
an assertion fails.  Note that the source asserts `!pNode->isLeaf()` at
line 709 *before* its own leaf branch at line 717, so any leaf reached by
the recursion (in particular the root of a one-object tree) fails. -/
def checkNode (t : Tree) : ℤ → ℕ → Bool
  | _, 0 => false
  | nodeID, fuel + 1 =>
      if nodeID = NULL_TREE_NODE then true
      else
        match nodeAt t nodeID with
        | none => false
        | some pNode =>
            (if nodeID = t.m_rootNodeID then pNode.parentID = NULL_TREE_NODE else true) &&
            (!pNode.isLeaf) &&
            decide (0 ≤ pNode.height) &&
            decide (0 < pNode.aabb.getVolume) &&
            (if pNode.isLeaf then
              decide (pNode.child1 = NULL_TREE_NODE) &&
              decide (pNode.child2 = NULL_TREE_NODE) &&
              decide (pNode.height = 0)
            else
              decide (0 ≤ pNode.child1) && decide (pNode.child1 < t.mNbAllocatedNodes) &&
              decide (0 ≤ pNode.child2) && decide (pNode.child2 < t.mNbAllocatedNodes) &&
              match nodeAt t pNode.child1, nodeAt t pNode.child2 with
              | some l, some r =>
                  decide (l.parentID = nodeID) && decide (r.parentID = nodeID) &&
                  decide (pNode.height = 1 + max l.height r.height) &&
                  decide (AABB.mergeTwoAABBs l.aabb r.aabb = pNode.aabb) &&
                  checkNode t pNode.child1 fuel && checkNode t pNode.child2 fuel
              | _, _ => false)

/-- The free-list count of `DynamicAABBTree::check` (DynamicAABBTree.cpp:688). -/
def countFreeNodes (t : Tree) : ℤ → ℕ → Option ℤ
  | _, 0 => none
  | freeNodeID, fuel + 1 =>
      if freeNodeID = NULL_TREE_NODE then some 0
      else
        match nodeAt t freeNodeID with
        | none => none
        | some n => (countFreeNodes t n.nextNodeID fuel).map (· + 1)

/-- `DynamicAABBTree::check` (DynamicAABBTree.cpp:679): recursive node
check plus the live-plus-free node accounting. -/
def check (t : Tree) (fuel : ℕ) : Bool :=
  checkNode t t.m_rootNodeID fuel &&
  match countFreeNodes t t.mFreeNodeID fuel with
  | none => false
  | some nbFreeNodes => decide (t.mNbNodes + nbFreeNodes = t.mNbAllocatedNodes)

/-! #### Ray casting -/

/-- The stack-driven traversal of `DynamicAABBTree::raycast`
(DynamicAABBTree.cpp:615), instrumented to return the trace of callback
invocations: for each leaf whose AABB intersects the clipped ray, the tuple
(node id, the ray handed to the callback, the callback's return value). -/
def raycastLoop (t : Tree) (cb : ℤ → Ray → ℚ) (p1 p2 : Vector3) :
    List ℤ → ℚ → List (ℤ × Ray × ℚ) → ℕ → Option (List (ℤ × Ray × ℚ))
  | [], _, acc, _ => some acc
  | _ :: _, _, _, 0 => none
  | nodeID :: stack, maxFraction, acc, fuel + 1 =>
      if nodeID = NULL_TREE_NODE then raycastLoop t cb p1 p2 stack maxFraction acc fuel
      else
        match nodeAt t nodeID with
        | none => none
        | some node =>
            if ¬ node.aabb.testRayIntersect ⟨p1, p2, maxFraction⟩ then
              raycastLoop t cb p1 p2 stack maxFraction acc fuel
            else if node.isLeaf then
              if cb nodeID ⟨p1, p2, maxFraction⟩ = 0 then
                some (acc ++ [(nodeID, ⟨p1, p2, maxFraction⟩,
                  cb nodeID ⟨p1, p2, maxFraction⟩)])
              else
                raycastLoop t cb p1 p2 stack
                  (if 0 < cb nodeID ⟨p1, p2, maxFraction⟩ ∧
                      cb nodeID ⟨p1, p2, maxFraction⟩ < maxFraction then
                    cb nodeID ⟨p1, p2, maxFraction⟩
                  else maxFraction)
                  (acc ++ [(nodeID, ⟨p1, p2, maxFraction⟩,
                    cb nodeID ⟨p1, p2, maxFraction⟩)]) fuel
            else
              raycastLoop t cb p1 p2 (node.child2 :: node.child1 :: stack)
                maxFraction acc fuel

/-- `DynamicAABBTree::raycast` (DynamicAABBTree.cpp:615). -/
def raycast (t : Tree) (ray : Ray) (cb : ℤ → Ray → ℚ) (fuel : ℕ) :
    Option (List (ℤ × Ray × ℚ)) :=
  raycastLoop t cb ray.point1 ray.point2 [t.m_rootNodeID] ray.maxFraction [] fuel

/-- The running clip of the maximum ray fraction over a list of callback
return values: a positive return below the current maximum tightens it,
anything else leaves it unchanged. -/
def clipFold (f0 : ℚ) (rs : List ℚ) : ℚ :=
  rs.foldl (fun mf r => if 0 < r ∧ r < mf then r else mf) f0

/-- Well-formedness of a ray-cast callback trace with initial maximum
fraction `f0`: every invocation received the original segment clipped to
the running maximum fraction (the initial fraction tightened by every
earlier positive return below it), the recorded value is the callback's
return on exactly that ray, and the invoked node is a leaf whose AABB
passes the intersection test against that clipped ray. -/
def TraceOK (t : Tree) (cb : ℤ → Ray → ℚ) (p1 p2 : Vector3) (f0 : ℚ)
    (l : List (ℤ × Ray × ℚ)) : Prop :=
  ∀ k (hk : k < l.length),
    (l.get ⟨k, hk⟩).2.1 =
      ⟨p1, p2, clipFold f0 ((l.take k).map fun e => e.2.2)⟩ ∧
    (l.get ⟨k, hk⟩).2.2 = cb (l.get ⟨k, hk⟩).1 (l.get ⟨k, hk⟩).2.1 ∧
    ((nodeAt t (l.get ⟨k, hk⟩).1).map fun n =>
      (n.isLeaf, n.aabb.testRayIntersect (l.get ⟨k, hk⟩).2.1)) = some (true, true)

theorem clipFold_append (f0 : ℚ) (rs : List ℚ) (r : ℚ) :
    clipFold f0 (rs ++ [r]) =
      if 0 < r ∧ r < clipFold f0 rs then r else clipFold f0 rs := by
  rw [clipFold, List.foldl_append]
  rfl

theorem traceOK_append (t : Tree) (cb : ℤ → Ray → ℚ) (p1 p2 : Vector3) (f0 : ℚ)
    (acc : List (ℤ × Ray × ℚ)) (nodeID : ℤ) (node : TreeNode)
    (hacc : TraceOK t cb p1 p2 f0 acc)
    (hnode : nodeAt t nodeID = some node)
    (hleaf : node.isLeaf = true)
    (hhit : node.aabb.testRayIntersect ⟨p1, p2, clipFold f0 (acc.map fun e => e.2.2)⟩
      = true) :
    TraceOK t cb p1 p2 f0 (acc ++
      [(nodeID, ⟨p1, p2, clipFold f0 (acc.map fun e => e.2.2)⟩,
        cb nodeID ⟨p1, p2, clipFold f0 (acc.map fun e => e.2.2)⟩)]) := by
  intro k hk
  rcases Nat.lt_or_ge k acc.length with hklt | hkge
  · have hget : ((acc ++ [(nodeID, (⟨p1, p2, clipFold f0 (acc.map fun e => e.2.2)⟩ : Ray),
        cb nodeID ⟨p1, p2, clipFold f0 (acc.map fun e => e.2.2)⟩)]).get ⟨k, hk⟩)
        = acc.get ⟨k, hklt⟩ := by
      rw [List.get_eq_getElem, List.get_eq_getElem, List.getElem_append_left hklt]
    have htake : (acc ++ [(nodeID, (⟨p1, p2, clipFold f0 (acc.map fun e => e.2.2)⟩ : Ray),
        cb nodeID ⟨p1, p2, clipFold f0 (acc.map fun e => e.2.2)⟩)]).take k = acc.take k := by
      rw [List.take_append_of_le_length (le_of_lt hklt)]
    rw [hget, htake]
    exact hacc k hklt
  · have hlen : (acc ++ [(nodeID, (⟨p1, p2, clipFold f0 (acc.map fun e => e.2.2)⟩ : Ray),
        cb nodeID ⟨p1, p2, clipFold f0 (acc.map fun e => e.2.2)⟩)]).length
        = acc.length + 1 := by
      rw [List.length_append, List.length_cons, List.length_nil]
    have hkeq : k = acc.length := by omega
    subst hkeq
    have hget : ((acc ++ [(nodeID, (⟨p1, p2, clipFold f0 (acc.map fun e => e.2.2)⟩ : Ray),
        cb nodeID ⟨p1, p2, clipFold f0 (acc.map fun e => e.2.2)⟩)]).get ⟨acc.length, hk⟩)
        = (nodeID, (⟨p1, p2, clipFold f0 (acc.map fun e => e.2.2)⟩ : Ray),
          cb nodeID ⟨p1, p2, clipFold f0 (acc.map fun e => e.2.2)⟩) := by
      rw [List.get_eq_getElem, List.getElem_append_right (le_refl acc.length)]
      simp
    have htake : (acc ++ [(nodeID, (⟨p1, p2, clipFold f0 (acc.map fun e => e.2.2)⟩ : Ray),
        cb nodeID ⟨p1, p2, clipFold f0 (acc.map fun e => e.2.2)⟩)]).take acc.length
        = acc := by
      rw [List.take_append_of_le_length (le_refl acc.length), List.take_length]
    rw [hget, htake]
    refine ⟨rfl, rfl, ?_⟩
    rw [hnode]
    simp [hleaf, hhit]

theorem raycastLoop_spec (t : Tree) (cb : ℤ → Ray → ℚ) (p1 p2 : Vector3) (f0 : ℚ) :
    ∀ (fuel : ℕ) (stack : List ℤ) (mf : ℚ) (acc trace : List (ℤ × Ray × ℚ)),
      raycastLoop t cb p1 p2 stack mf acc fuel = some trace →
      mf = clipFold f0 (acc.map fun e => e.2.2) →
      TraceOK t cb p1 p2 f0 acc →
      (∀ e ∈ acc, e.2.2 ≠ 0) →
      TraceOK t cb p1 p2 f0 trace ∧
        (∀ k (hk : k < trace.length), (trace.get ⟨k, hk⟩).2.2 = 0 →
          k + 1 = trace.length) := by
  intro fuel
  induction fuel with
  | zero =>
      intro stack mf acc trace hrun hmf hacc hnz
      cases stack with
      | nil =>
          rw [raycastLoop] at hrun
          cases hrun
          refine ⟨hacc, ?_⟩
          intro k hk hzero
          exact absurd hzero (hnz _ (List.get_mem _ _ hk))
      | cons a s => exact absurd hrun (by rw [raycastLoop]; exact Option.noConfusion)
  | succ n ih =>
      intro stack mf acc trace hrun hmf hacc hnz
      cases stack with
      | nil =>
          rw [raycastLoop] at hrun
          cases hrun
          refine ⟨hacc, ?_⟩
          intro k hk hzero
          exact absurd hzero (hnz _ (List.get_mem _ _ hk))
      | cons nodeID stack =>
          subst hmf
          rw [raycastLoop] at hrun
          split at hrun
          · exact ih stack _ acc trace hrun rfl hacc hnz
          · rename_i hnn
            split at hrun
            · exact Option.noConfusion hrun
            · rename_i node hnode
              split at hrun
              · exact ih stack _ acc trace hrun rfl hacc hnz
              · rename_i hhitn
                have hhit := not_not.1 hhitn
                split at hrun
                · rename_i hleaf
                  split at hrun
                  · rename_i hzero
                    cases hrun
                    refine ⟨traceOK_append t cb p1 p2 f0 acc nodeID node hacc hnode
                      hleaf hhit, ?_⟩
                    intro k hk _
                    have hlen2 : (acc ++ [(nodeID,
                        (⟨p1, p2, clipFold f0 (acc.map fun e => e.2.2)⟩ : Ray),
                        cb nodeID ⟨p1, p2, clipFold f0 (acc.map fun e => e.2.2)⟩)]).length
                        = acc.length + 1 := by
                      rw [List.length_append, List.length_cons, List.length_nil]
                    rcases Nat.lt_or_ge k acc.length with hklt | hkge
                    · exfalso
                      rename_i hzk
                      have hget : ((acc ++ [(nodeID,
                          (⟨p1, p2, clipFold f0 (acc.map fun e => e.2.2)⟩ : Ray),
                          cb nodeID ⟨p1, p2, clipFold f0 (acc.map fun e => e.2.2)⟩)]).get
                            ⟨k, hk⟩) = acc.get ⟨k, hklt⟩ := by
                        rw [List.get_eq_getElem, List.get_eq_getElem,
                          List.getElem_append_left hklt]
                      rw [hget] at hzk
                      exact hnz _ (List.get_mem _ _ hklt) hzk
                    · rw [hlen2] at hk ⊢
                      omega
                  · rename_i hnzero
                    refine ih stack _ _ trace hrun ?_ ?_ ?_
                    · simp only [List.map_append, List.map_cons, List.map_nil]
                      rw [clipFold_append]
                    · exact traceOK_append t cb p1 p2 f0 acc nodeID node hacc hnode
                        hleaf hhit
                    · intro e he
                      rcases List.mem_append.1 he with he1 | he1
                      · exact hnz e he1
                      · rcases List.mem_singleton.1 he1 with rfl
                        exact hnzero
                · exact ih _ _ acc trace hrun rfl hacc hnz

/-- Claim C6: during a broad-phase ray cast, every callback invocation
happens at a leaf whose AABB intersects the ray clipped to the running
maximum fraction; that running maximum starts at the ray's maximum fraction
and is tightened exactly by the positive callback returns smaller than it
(negative returns leave it unchanged and the traversal continues); and a
zero return terminates the traversal immediately — its invocation is the
last one of the trace. -/
theorem raycast_callback_protocol (t : Tree) (ray : Ray) (cb : ℤ → Ray → ℚ)
    (fuel : ℕ) (trace : List (ℤ × Ray × ℚ))
    (h : raycast t ray cb fuel = some trace) :
    TraceOK t cb ray.point1 ray.point2 ray.maxFraction trace ∧
    (∀ k (hk : k < trace.length), (trace.get ⟨k, hk⟩).2.2 = 0 →
      k + 1 = trace.length) :=
  raycastLoop_spec t cb ray.point1 ray.point2 ray.maxFraction fuel
    [t.m_rootNodeID] ray.maxFraction [] trace h rfl
    (fun k hk => absurd hk (by simp)) (fun e he => absurd he (by simp))

/-- A two-proxy tree (the AABBs of unit spheres at x = 2 and x = 5),
matching the spec's ray-cast scenario. -/
def twoSphereTree : Option Tree := do
  let (_, t) ← addObject (initTree 0) ⟨⟨1,-1,-1⟩,⟨3,1,1⟩⟩ 0 0 16
  let (_, t) ← addObject t ⟨⟨4,-1,-1⟩,⟨6,1,1⟩⟩ 0 0 16
  pure t

/-- A callback returning fraction 1/5 for leaf 0, 1/2 for leaf 1. -/
def twoSphereCallback : ℤ → Ray → ℚ :=
  fun i _ => if i = 0 then 1/5 else if i = 1 then 1/2 else -1

unseal Rat.add Rat.mul Rat.sub Rat.inv in
/-- Witness for claim C6: on the two-proxy tree, the ray from (-1,0,0)
towards (9,0,0) visits leaf 1 at maximum fraction 1, whose return 1/2
tightens the fraction seen by leaf 0. -/
theorem raycast_callback_protocol_witness :
    (∃ t, twoSphereTree = some t ∧
      raycast t ⟨⟨-1,0,0⟩,⟨9,0,0⟩,1⟩ twoSphereCallback 16 =
        some [(1, ⟨⟨-1,0,0⟩,⟨9,0,0⟩,1⟩, 1/2),
              (0, ⟨⟨-1,0,0⟩,⟨9,0,0⟩,1/2⟩, 1/5)]) ∧
    (∀ t, twoSphereTree = some t →
      TraceOK t twoSphereCallback ⟨-1,0,0⟩ ⟨9,0,0⟩ 1
        [(1, ⟨⟨-1,0,0⟩,⟨9,0,0⟩,1⟩, 1/2),
         (0, ⟨⟨-1,0,0⟩,⟨9,0,0⟩,1/2⟩, 1/5)]) := by
  refine ⟨⟨((twoSphereTree.get (by decide)) : Tree), by decide, by decide⟩, ?_⟩
  intro t ht
  have h2 : raycast t ⟨⟨-1,0,0⟩,⟨9,0,0⟩,1⟩ twoSphereCallback 16 =
      some [(1, ⟨⟨-1,0,0⟩,⟨9,0,0⟩,1⟩, 1/2),
            (0, ⟨⟨-1,0,0⟩,⟨9,0,0⟩,1/2⟩, 1/5)] := by
    rw [show t = twoSphereTree.get (by decide) from by
      rw [Option.eq_some_iff_get_eq] at ht; exact ht.2.symm]
    decide
  exact (raycast_callback_protocol t _ twoSphereCallback 16 _ h2).1

/-! #### Concrete reachable states refuting the balance and round-trip claims -/

def boxAt (x0 x1 : ℚ) : AABB := ⟨⟨x0, 0, 0⟩, ⟨x1, 1, 1⟩⟩

/-- A nine-operation public call sequence.  The final insertion stops its
sibling descent at an internal node of height 3 (the cost heuristic's
`break`), creating a new parent whose children have heights 3 and 0;
the single rotation of `balanceSubTreeAtNode` leaves that node with a
balance factor of -2. -/
def cexUnbalancedTree : Option Tree := do
  let (_, t) ← addObject (initTree 0) (boxAt 90 101) 0 0 16
  let (_, t) ← addObject t (boxAt 139 159) 0 0 16
  let (_, t) ← addObject t (boxAt 144 159) 0 0 16
  let (_, t) ← addObject t (boxAt 165 185) 0 0 16
  let (_, t) ← addObject t (boxAt 139 153) 0 0 16
  let (_, t) ← addObject t (boxAt 150 155) 0 0 16
  let (_, t) ← addObject t (boxAt 140 148) 0 0 16
  let t ← removeObject t 0 16
  let (_, t) ← addObject t (boxAt 29 36) 0 0 16
  pure t

/-- The balance-factor condition of claim C1, as a decidable check over all
allocated nodes: every internal node (height at least 1) has children whose
heights differ by at most one. -/
def internalNodesBalanced (t : Tree) : Bool :=
  (List.range t.mNodes.length).all fun i =>
    match nodeAt t (Int.ofNat i) with
    | none => true
    | some n =>
        if 1 ≤ n.height then
          match nodeAt t n.child1, nodeAt t n.child2 with
          | some l, some r =>
              decide (-1 ≤ l.height - r.height) && decide (l.height - r.height ≤ 1)
          | _, _ => false
        else true

/-- The AABB-containment condition of claim C1, as a decidable check:
every internal node's AABB contains both children's AABBs. -/
def internalNodesContainChildren (t : Tree) : Bool :=
  (List.range t.mNodes.length).all fun i =>
    match nodeAt t (Int.ofNat i) with
    | none => true
    | some n =>
        if 1 ≤ n.height then
          match nodeAt t n.child1, nodeAt t n.child2 with
          | some l, some r => n.aabb.contains l.aabb && n.aabb.contains r.aabb
          | _, _ => false
        else true

unseal Rat.add Rat.mul Rat.sub Rat.inv in
/-- Claim C1 as stated is false: after the nine public operations of
`cexUnbalancedTree`, node 2 — the root's left child, an internal node of
height 3 — has children of heights 2 and 0 (balance factor -2).  The
AABB-containment half still holds on this state. -/
theorem tree_balance_counterexample :
    (cexUnbalancedTree.map internalNodesBalanced) = some false ∧
    (cexUnbalancedTree.map internalNodesContainChildren) = some true ∧
    (cexUnbalancedTree.map fun t => t.m_rootNodeID) = some 8 ∧
    ((cexUnbalancedTree.bind fun t => nodeAt t 8).map fun n => n.child1) = some 2 ∧
    ((cexUnbalancedTree.bind fun t => nodeAt t 2).map fun n =>
      (n.child1, n.child2, n.height)) = some (6, 0, 3) ∧
    ((cexUnbalancedTree.bind fun t => nodeAt t 6).map fun n => n.height) = some 2 ∧
    ((cexUnbalancedTree.bind fun t => nodeAt t 0).map fun n => n.height) = some 0 := by
  refine ⟨by decide, by decide, by decide, by decide, by decide, by decide, by decide⟩

/-- Inserting one more proxy into `cexUnbalancedTree` and removing it
again: the pair (live node count, computed tree height) after the
round trip. -/
def cexRoundtripAfter : Option (ℤ × ℤ) := do
  let t ← cexUnbalancedTree
  let (j, t) ← addObjectInternal t (boxAt 165 185) 16
  let t ← removeObject t j 16
  let h ← computeHeight t 16
  pure (t.mNbNodes, h)

unseal Rat.add Rat.mul Rat.sub Rat.inv in
/-- Claim C9 as stated is false: on the reachable state
`cexUnbalancedTree` (13 live nodes, height 4), inserting the AABB
[165,185]x[0,1]x[0,1] and immediately removing it leaves 13 live nodes but
height 3 — the insertion triggered a rotation that the removal does not
undo. -/
theorem tree_roundtrip_counterexample :
    ((cexUnbalancedTree.map fun t => t.mNbNodes) = some 13) ∧
    ((cexUnbalancedTree.bind fun t => computeHeight t 16) = some 4) ∧
    cexRoundtripAfter = some (13, 3) := by
  refine ⟨by decide, by decide, by decide⟩

/-- The one-object tree: a unit box added to a fresh tree. -/
def oneObjectTree : Option Tree :=
  (addObject (initTree 0) ⟨⟨0,0,0⟩,⟨1,1,1⟩⟩ 7 9 16).map (·.2)

unseal Rat.add Rat.mul Rat.sub Rat.inv in
/-- Claim C8 is right and the code is wrong: `DynamicAABBTree::checkNode`
asserts `!pNode->isLeaf()` (DynamicAABBTree.cpp:709) *before* its own
leaf-handling branch (line 717), so the checker fails on every non-empty
tree — here already on the one-object tree, whose root is a leaf (height 0)
even though the tree is structurally sound (the live-plus-free accounting
conjunct alone holds). -/
theorem tree_checker_code_bug :
    ((oneObjectTree.bind fun t => nodeAt t t.m_rootNodeID).map fun n => n.height)
      = some 0 ∧
    (oneObjectTree.map fun t => checkNode t t.m_rootNodeID 16) = some false ∧
    (oneObjectTree.map fun t => check t 16) = some false ∧
    (oneObjectTree.map fun t =>
      match countFreeNodes t t.mFreeNodeID 16 with
      | some nbFreeNodes => decide (t.mNbNodes + nbFreeNodes = t.mNbAllocatedNodes)
      | none => false) = some true := by
  refine ⟨by decide, by decide, by decide, by decide⟩

end DynamicTree

end EphysicsProof
